import Mathlib

/-!
# A verification development for the `sequitur-rs` grammar-compression engines

This file shallowly embeds the core of the `sequitur-rs` crate:

* `src/id_gen.rs`   — the rule-id allocator (`IdGenerator`);
* `src/symbol.rs`   — the tagged symbol type and its hash / equality helpers;
* `src/grammar.rs`  — the standard Sequitur invariant-maintenance engine
  (`GrammarFields`: `find_and_add_digram`, `swap_for_new_rule`,
  `swap_for_existing_rule`, `expand_rule_if_necessary`, `link_made`, ...);
* `src/sequitur.rs` — the public `Sequitur` engine (`new`, `push`, `extend`,
  `len`, `rules`, `stats`);
* `src/iter.rs`     — the reconstruction iterator (`SequiturIter`);
* `src/rle_*.rs`    — the run-length-encoded variant (`RleGrammar`,
  `SequiturRle`, `RleSequiturIter`);
* `src/repair.rs`   — the RePair engine.

Modelling conventions, chosen once and used throughout:

* Terminal payloads are specialised to `Nat` (the Rust code is generic over
  `T : Hash + Eq + Clone`; the claims quantify over input sequences, and all
  repository tests use `u8`/`char` payloads).
* `slotmap::SlotMap<DefaultKey, _>` is modelled as a function
  `Nat → Option SymbolNode` together with a `fresh : Nat` counter; `insert` hands
  out `fresh` and increments it, `remove` sets the slot to `none`.  A slotmap
  never revalidates a removed generational key, so handing out fresh keys is
  observationally equivalent.
* `ahash::AHashMap` maps are modelled as functions into `Option` when the
  code only ever looks entries up (the digram index, `value_to_index`,
  `pair_threads`), and as association lists when the code iterates over the
  map (the rule index, `pair_records`).  Iteration order of a Rust hash map
  is unspecified; the association-list order is one admissible order.
* `std::collections::hash_map::DefaultHasher` (64-bit SipHash) is modelled by
  an injective encoding of the hashed fields: `SymbolHash::from_symbol`
  hashes a discriminant tag together with the payload / rule id, and distinct
  (tag, payload) pairs are astronomically unlikely to collide.  The
  full-equality collision guard of the source is retained verbatim.
* Rust `u32`/`usize` counters are modelled as `Nat`.  The only subtraction,
  `decrement_rule_count`, is guarded in the source by
  `debug_assert!(count > 0)` and is modelled with truncated subtraction.
* Statements indexing a slotmap (`self.symbols[k]`), which panic on a stale
  key, are modelled by total lookup with a dummy `RuleTail` node as the
  panic value; paths that are only reachable through such a panic return the
  state unchanged.  `assert!` failures that are part of a claim (pushing to a
  compressed RePair engine, freeing an unallocated id) are modelled with
  `Option`.
* The mutually recursive cascade `link_made` / `swap_for_*` /
  `expand_rule_if_necessary` / `check_new_links*` is modelled with an
  explicit `fuel` argument that every call decrements; on exhausted fuel the
  state is returned unchanged.  The Rust recursion terminates, so its
  behaviour is that of the model at any sufficiently large fuel; theorems
  below are proved for every fuel.
-/

set_option maxHeartbeats 1000000

namespace SequiturRs

/-- Arena key (`slotmap::DefaultKey`). -/
abbrev Key := Nat

/-- `Symbol<T>` from `src/symbol.rs`, with `T = Nat`.  The four variants are
exactly those of `src/symbol.rs`: `Value`, `RuleRef`, `RuleHead`, `RuleTail`.
(The multi-document sentinels live in a separate module and no claim involves
multi-document mode.) -/
inductive Symbol where
  | value (v : Nat)
  | ruleRef (ruleId : Nat)
  | ruleHead (ruleId : Nat) (count : Nat) (tail : Key)
  | ruleTail
deriving Repr, DecidableEq

/-- `SymbolHash::from_symbol` (src/symbol.rs): the digram-index fingerprint of
a symbol.  The source hashes a `u8` tag plus the payload (`Value`), the rule
id (`RuleRef`, `RuleHead`) or nothing (`RuleTail`) with `DefaultHasher`; we
model the hash as the injective encoding of exactly those hashed fields. -/
inductive SymbolHash where
  | value (v : Nat)
  | ruleRef (ruleId : Nat)
  | ruleHead (ruleId : Nat)
  | ruleTail
deriving Repr, DecidableEq

/-- `SymbolHash::from_symbol`. -/
def Symbol.hashOf : Symbol → SymbolHash
  | .value v => .value v
  | .ruleRef ruleId => .ruleRef ruleId
  | .ruleHead ruleId _ _ => .ruleHead ruleId
  | .ruleTail => .ruleTail

/-- `Symbol::equals` (src/symbol.rs): payload equality used to verify hash
matches in digram lookup. -/
def Symbol.equals : Symbol → Symbol → Bool
  | .value a, .value b => a == b
  | .ruleRef a, .ruleRef b => a == b
  | .ruleHead a _ _, .ruleHead b _ _ => a == b
  | .ruleTail, .ruleTail => true
  | _, _ => false

/-- `is_sequence_start` (src/grammar.rs): in single-document mode, a
`RuleHead`. -/
def Symbol.isSequenceStart : Symbol → Bool
  | .ruleHead _ _ _ => true
  | _ => false

/-- `is_sequence_end` (src/grammar.rs): in single-document mode, a
`RuleTail`. -/
def Symbol.isSequenceEnd : Symbol → Bool
  | .ruleTail => true
  | _ => false

/-- `SymbolNode<T>` (src/symbol.rs): one doubly-linked arena node. -/
structure SymbolNode where
  symbol : Symbol
  prev : Option Key
  next : Option Key
deriving Repr, DecidableEq

/-- `SymbolNode::new`. -/
def SymbolNode.mk' (s : Symbol) : SymbolNode := ⟨s, none, none⟩

/-- The dummy node returned when the source would panic on a stale slotmap
index. -/
def SymbolNode.dummy : SymbolNode := ⟨.ruleTail, none, none⟩

/-- `IdGenerator` (src/id_gen.rs). -/
structure IdGenerator where
  next : Nat
  freed : List Nat
deriving Repr, DecidableEq

/-- `IdGenerator::new`. -/
def IdGenerator.new : IdGenerator := ⟨0, []⟩

/-- `IdGenerator::get`: pop the freed stack if non-empty, otherwise return
`next` and post-increment it. -/
def IdGenerator.get : IdGenerator → Nat × IdGenerator
  | ⟨n, []⟩ => (n, ⟨n + 1, []⟩)
  | ⟨n, id :: rest⟩ => (id, ⟨n, rest⟩)

/-- `IdGenerator::free`: `assert!(id < self.next)`, then push onto the freed
stack.  The assertion failure (abort) is modelled as `none`. -/
def IdGenerator.free (g : IdGenerator) (id : Nat) : Option IdGenerator :=
  if id < g.next then some ⟨g.next, id :: g.freed⟩ else none

/-- `free` as invoked from inside the engines (`expand_rule_if_necessary`),
where the freed id was always previously handed out by `get`, so the
assertion cannot fire; the unreachable abort path keeps the state. -/
def IdGenerator.freeU (g : IdGenerator) (id : Nat) : IdGenerator :=
  (g.free id).getD g

/-- Mutation-ordered association map with tombstones: the most recent
binding of a key wins (`none` marks a removed entry).  Models the Rust
`SlotMap` / `AHashMap` stores: every mutation conses the new binding, and a
lookup walks to the most recent one.  First-order data, so that concrete
engine states reduce inside the kernel. -/
def mapFind {α β : Type} [DecidableEq α] : List (α × Option β) → α → Option β
  | [], _ => none
  | (a, v) :: rest, k => if a = k then v else mapFind rest k

/-- The grammar storage shared by `Sequitur` (src/sequitur.rs fields) and
manipulated by `GrammarFields` (src/grammar.rs). -/
structure Grammar where
  /-- `symbols : SlotMap<DefaultKey, SymbolNode<T>>` -/
  symbols : List (Key × Option SymbolNode)
  /-- next fresh arena key; every live key is `< fresh` -/
  fresh : Key
  /-- `digram_index : AHashMap<(SymbolHash, SymbolHash), DefaultKey>` -/
  digramIndex : List ((SymbolHash × SymbolHash) × Option Key)
  /-- `rule_index : AHashMap<u32, DefaultKey>` as an association list -/
  ruleIndex : List (Nat × Key)
  /-- `id_gen : IdGenerator` -/
  idGen : IdGenerator

/-- Total arena lookup; dummy node on the (panicking) stale-key path. -/
def Grammar.node (g : Grammar) (k : Key) : SymbolNode := (mapFind g.symbols k).getD SymbolNode.dummy

/-- `self.symbols.contains_key(k)`. -/
def Grammar.contains (g : Grammar) (k : Key) : Bool := (mapFind g.symbols k).isSome

/-- `self.symbols.insert(node)`: returns the new key. -/
def Grammar.insertNode (g : Grammar) (n : SymbolNode) : Grammar × Key :=
  ({ g with
      symbols := (g.fresh, some n) :: g.symbols,
      fresh := g.fresh + 1 }, g.fresh)

/-- `self.symbols.remove(k)`. -/
def Grammar.removeNode (g : Grammar) (k : Key) : Grammar :=
  { g with symbols := (k, none) :: g.symbols }

/-- Overwrite the node stored at a (live) key. -/
def Grammar.setNode (g : Grammar) (k : Key) (n : SymbolNode) : Grammar :=
  { g with symbols := (k, some n) :: g.symbols }

/-- `self.symbols[k].next = v`. -/
def Grammar.setNext (g : Grammar) (k : Key) (v : Option Key) : Grammar :=
  g.setNode k { g.node k with next := v }

/-- `self.symbols[k].prev = v`. -/
def Grammar.setPrev (g : Grammar) (k : Key) (v : Option Key) : Grammar :=
  g.setNode k { g.node k with prev := v }

/-- `self.symbols[k].symbol = s`. -/
def Grammar.setSym (g : Grammar) (k : Key) (s : Symbol) : Grammar :=
  g.setNode k { g.node k with symbol := s }

/-- `self.digram_index.insert(h, k)` / occupied-entry overwrite. -/
def Grammar.digramInsert (g : Grammar) (h : SymbolHash × SymbolHash) (k : Key) : Grammar :=
  { g with digramIndex := (h, some k) :: g.digramIndex }

/-- Remove a digram-index entry. -/
def Grammar.digramErase (g : Grammar) (h : SymbolHash × SymbolHash) : Grammar :=
  { g with digramIndex := (h, none) :: g.digramIndex }

/-- `self.rule_index.get(&id)`. -/
def Grammar.ruleLookup (g : Grammar) (id : Nat) : Option Key :=
  (g.ruleIndex.find? (fun p => p.1 == id)).map (·.2)

/-- `self.rule_index.insert(id, k)`. -/
def Grammar.ruleInsert (g : Grammar) (id : Nat) (k : Key) : Grammar :=
  { g with ruleIndex := (id, k) :: g.ruleIndex.filter (fun p => p.1 ≠ id) }

/-- `self.rule_index.remove(&id)`. -/
def Grammar.ruleErase (g : Grammar) (id : Nat) : Grammar :=
  { g with ruleIndex := g.ruleIndex.filter (fun p => p.1 ≠ id) }

/-- `GrammarFields::find_and_add_digram` (src/grammar.rs).  Returns the
updated grammar and `Some(other_first)` on a valid non-overlapping match. -/
def Grammar.findAndAddDigram (g : Grammar) (first second : Key) :
    Grammar × Option Key :=
  if (g.node first).symbol.isSequenceStart ∨ (g.node second).symbol.isSequenceEnd then
    (g, none)
  else
    let h1 := (g.node first).symbol.hashOf
    let h2 := (g.node second).symbol.hashOf
    match mapFind g.digramIndex (h1, h2) with
    | none => (g.digramInsert (h1, h2) first, none)
    | some otherFirst =>
      if otherFirst = first then (g, none)
      else if ¬ g.contains otherFirst then
        -- stale entry: update it
        (g.digramInsert (h1, h2) first, none)
      else
        match (g.node otherFirst).next with
        | none => (g, none)  -- `.expect("Digram first should have next")`
        | some otherSecond =>
          if otherSecond = first ∨ otherFirst = second then (g, none)
          else if (g.node first).symbol.equals (g.node otherFirst).symbol
                  ∧ (g.node second).symbol.equals (g.node otherSecond).symbol then
            (g, some otherFirst)
          else (g, none)

/-- `GrammarFields::remove_digram_from_index` (src/grammar.rs): remove the
entry only when it still points to this exact occurrence. -/
def Grammar.removeDigramFromIndex (g : Grammar) (first : Key) : Grammar :=
  if (g.node first).symbol.isSequenceStart then g
  else
    match (g.node first).next with
    | none => g
    | some second =>
      if (g.node second).symbol.isSequenceEnd then g
      else
        let h1 := (g.node first).symbol.hashOf
        let h2 := (g.node second).symbol.hashOf
        match mapFind g.digramIndex (h1, h2) with
        | none => g
        | some k => if k = first then g.digramErase (h1, h2) else g

/-- `GrammarFields::get_complete_rule` (src/grammar.rs): `Some(head)` when
the digram at `first` is an entire rule body. -/
def Grammar.getCompleteRule (g : Grammar) (first : Key) : Option Key :=
  match (g.node first).next with
  | none => none
  | some second =>
    match (g.node first).prev with
    | none => none
    | some prev =>
      match (g.node prev).symbol with
      | .ruleHead _ _ tail =>
        match (g.node second).next with
        | none => none
        | some afterSecond =>
          match (g.node afterSecond).symbol with
          | .ruleTail => if tail = afterSecond then some prev else none
          | _ => none
      | _ => none

/-- `GrammarFields::increment_rule_count`. -/
def Grammar.incrementRuleCount (g : Grammar) (headKey : Key) : Grammar :=
  match (g.node headKey).symbol with
  | .ruleHead ruleId count tail => g.setSym headKey (.ruleHead ruleId (count + 1) tail)
  | _ => g

/-- `GrammarFields::decrement_rule_count` (`debug_assert!(count > 0)`). -/
def Grammar.decrementRuleCount (g : Grammar) (headKey : Key) : Grammar :=
  match (g.node headKey).symbol with
  | .ruleHead ruleId count tail => g.setSym headKey (.ruleHead ruleId (count - 1) tail)
  | _ => g

/-- `GrammarFields::increment_if_rule`. -/
def Grammar.incrementIfRule (g : Grammar) (k : Key) : Grammar :=
  match (g.node k).symbol with
  | .ruleRef ruleId =>
    match g.ruleLookup ruleId with
    | some headKey => g.incrementRuleCount headKey
    | none => g
  | _ => g

/-- `GrammarFields::decrement_if_rule`. -/
def Grammar.decrementIfRule (g : Grammar) (k : Key) : Grammar :=
  match (g.node k).symbol with
  | .ruleRef ruleId =>
    match g.ruleLookup ruleId with
    | some headKey => g.decrementRuleCount headKey
    | none => g
  | _ => g

/-!
## The Sequitur cascade (src/grammar.rs)

The five mutually recursive procedures, with a `fuel` parameter decremented
on every call; exhausted fuel returns the state unchanged (the Rust
recursion terminates, so sufficiently large fuel reproduces it exactly).
-/

mutual

/-- `GrammarFields::link_made` (src/grammar.rs). -/
def Grammar.linkMade : Nat → Grammar → Key → Grammar
  | 0, g, _ => g
  | fuel + 1, g, firstKey =>
    match (g.node firstKey).next with
    | none => g  -- `unwrap` after `debug_assert!`
    | some secondKey =>
      let (g, m) := g.findAndAddDigram firstKey secondKey
      match m with
      | none => g
      | some matchKey =>
        match g.getCompleteRule matchKey with
        | some ruleHeadKey =>
          let (g, newKey) := Grammar.swapForExistingRule fuel g firstKey ruleHeadKey
          Grammar.checkNewLinks fuel g newKey
        | none =>
          let (g, loc1, loc2) := Grammar.swapForNewRule fuel g firstKey matchKey
          Grammar.checkNewLinksPair fuel g loc1 loc2

termination_by structural fuel _ _ => fuel
/-- `GrammarFields::swap_for_new_rule` (src/grammar.rs). -/
def Grammar.swapForNewRule : Nat → Grammar → Key → Key → Grammar × Key × Key
  | 0, g, m1, m2 => (g, m1, m2)
  | fuel + 1, g, match1, match2 =>
    match (g.node match1).next with
    | none => (g, match1, match2)  -- `unwrap` after `debug_assert!`
    | some match1Second =>
      let firstSymbol := (g.node match1).symbol        -- `clone_symbol`
      let secondSymbol := (g.node match1Second).symbol -- `clone_symbol`
      let (ruleId, idGen) := g.idGen.get
      let g := { g with idGen := idGen }
      let (g, tailKey) := g.insertNode (.mk' .ruleTail)
      let (g, headKey) := g.insertNode (.mk' (.ruleHead ruleId 0 tailKey))
      let (g, ruleFirst) := g.insertNode (.mk' firstSymbol)
      let (g, ruleSecond) := g.insertNode (.mk' secondSymbol)
      let g := g.setNext headKey (some ruleFirst)
      let g := g.setPrev ruleFirst (some headKey)
      let g := g.setNext ruleFirst (some ruleSecond)
      let g := g.setPrev ruleSecond (some ruleFirst)
      let g := g.setNext ruleSecond (some tailKey)
      let g := g.setPrev tailKey (some ruleSecond)
      let g := g.removeDigramFromIndex match1
      let g := g.removeDigramFromIndex match2
      let h1 := (g.node ruleFirst).symbol.hashOf
      let h2 := (g.node ruleSecond).symbol.hashOf
      let g := g.digramInsert (h1, h2) ruleFirst
      let g := g.ruleInsert ruleId headKey
      let g := g.incrementIfRule ruleFirst
      let g := g.incrementIfRule ruleSecond
      let (g, loc1) := Grammar.swapForExistingRule fuel g match1 headKey
      let (g, loc2) := Grammar.swapForExistingRule fuel g match2 headKey
      (g, loc1, loc2)

termination_by structural fuel _ _ _ => fuel
/-- `GrammarFields::swap_for_existing_rule` (src/grammar.rs). -/
def Grammar.swapForExistingRule : Nat → Grammar → Key → Key → Grammar × Key
  | 0, g, first, _ => (g, first)
  | fuel + 1, g, first, ruleHead =>
    match (g.node first).next with
    | none => (g, first)  -- `.expect("first should have next in digram")`
    | some second =>
      let beforeDigram := (g.node first).prev
      let afterDigram := (g.node second).next
      let g := match beforeDigram with
        | some p => g.removeDigramFromIndex p
        | none => g
      let g := g.removeDigramFromIndex second
      let g := g.decrementIfRule first
      let g := g.decrementIfRule second
      let ruleId := match (g.node ruleHead).symbol with
        | .ruleHead rid _ _ => rid
        | _ => 0  -- `unreachable!()`
      let (g, newRuleKey) := g.insertNode (.mk' (.ruleRef ruleId))
      let g := g.setPrev newRuleKey beforeDigram
      let g := g.setNext newRuleKey afterDigram
      let g := match beforeDigram with
        | some p => g.setNext p (some newRuleKey)
        | none => g
      let g := match afterDigram with
        | some n => g.setPrev n (some newRuleKey)
        | none => g
      let g := g.incrementRuleCount ruleHead
      let g := g.removeNode first
      let g := g.removeNode second
      match (g.node ruleHead).next with
      | none => (g, newRuleKey)  -- `.expect("RuleHead should have next")`
      | some ruleFirst =>
        match (g.node ruleFirst).next with
        | none => (g, newRuleKey)  -- `.expect("Rule first should have next")`
        | some ruleSecond =>
          let g := Grammar.expandRuleIfNecessary fuel g ruleFirst
          let g := Grammar.expandRuleIfNecessary fuel g ruleSecond
          (g, newRuleKey)

termination_by structural fuel _ _ _ => fuel
/-- `GrammarFields::expand_rule_if_necessary` (src/grammar.rs). -/
def Grammar.expandRuleIfNecessary : Nat → Grammar → Key → Grammar
  | 0, g, _ => g
  | fuel + 1, g, potentialRule =>
    match (g.node potentialRule).symbol with
    | .ruleRef ruleId =>
      match g.ruleLookup ruleId with
      | none => g
      | some ruleHead =>
        let count := match (g.node ruleHead).symbol with
          | .ruleHead _ c _ => c
          | _ => 0  -- `unreachable!()`
        if count ≠ 1 then g
        else
          match (g.node ruleHead).next with
          | none => g  -- `.expect("RuleHead should have next")`
          | some ruleFirst =>
            let ruleTailKey := match (g.node ruleHead).symbol with
              | .ruleHead _ _ t => t
              | _ => 0  -- `unreachable!()`
            match (g.node ruleTailKey).prev with
            | none => g  -- `.expect("RuleTail should have prev")`
            | some ruleLast =>
              let beforeRule := (g.node potentialRule).prev
              let afterRule := (g.node potentialRule).next
              let g := match beforeRule with
                | some p => g.removeDigramFromIndex p
                | none => g
              let g := g.removeDigramFromIndex potentialRule
              let g := g.ruleErase ruleId
              let g := { g with idGen := g.idGen.freeU ruleId }
              let g := g.setNext ruleHead none
              let g := g.setPrev ruleFirst none
              let g := g.setNext ruleLast none
              let g := g.setPrev ruleTailKey none
              let g := g.removeNode ruleHead
              let g := g.removeNode ruleTailKey
              let g := g.setPrev ruleFirst beforeRule
              let g := g.setNext ruleLast afterRule
              let g := match beforeRule with
                | some p => g.setNext p (some ruleFirst)
                | none => g
              let g := match afterRule with
                | some n => g.setPrev n (some ruleLast)
                | none => g
              let g := g.removeNode potentialRule
              let g := match beforeRule with
                | some p =>
                  if ¬ (g.node p).symbol.isSequenceStart then Grammar.linkMade fuel g p else g
                | none => g
              match afterRule with
              | some a =>
                if ¬ (g.node a).symbol.isSequenceEnd then Grammar.linkMade fuel g ruleLast else g
              | none => g
    | _ => g

termination_by structural fuel _ _ => fuel
/-- `GrammarFields::check_new_links` (src/grammar.rs). -/
def Grammar.checkNewLinks : Nat → Grammar → Key → Grammar
  | 0, g, _ => g
  | fuel + 1, g, ruleKey =>
    if ¬ g.contains ruleKey then g
    else
      let g := match (g.node ruleKey).prev with
        | some p =>
          if ¬ (g.node p).symbol.isSequenceStart then Grammar.linkMade fuel g p else g
        | none => g
      if ¬ g.contains ruleKey then g
      else
        match (g.node ruleKey).next with
        | some nx =>
          if ¬ (g.node nx).symbol.isSequenceEnd ∧ ¬ (g.node ruleKey).symbol.isSequenceStart
          then Grammar.linkMade fuel g ruleKey else g
        | none => g

termination_by structural fuel _ _ => fuel
/-- `GrammarFields::check_new_links_pair` (src/grammar.rs). -/
def Grammar.checkNewLinksPair : Nat → Grammar → Key → Key → Grammar
  | 0, g, _, _ => g
  | fuel + 1, g, rule1, rule2 =>
    let g := match (g.node rule1).next with
      | some nx =>
        if ¬ (g.node nx).symbol.isSequenceEnd ∧ ¬ (g.node rule1).symbol.isSequenceStart
        then Grammar.linkMade fuel g rule1 else g
      | none => g
    let g := match (g.node rule2).next with
      | some nx =>
        if ¬ (g.node nx).symbol.isSequenceEnd ∧ ¬ (g.node rule2).symbol.isSequenceStart
        then Grammar.linkMade fuel g rule2 else g
      | none => g
    let g := match (g.node rule2).prev with
      | some p =>
        if p ≠ rule1 ∧ ¬ (g.node p).symbol.isSequenceStart
        then Grammar.linkMade fuel g p else g
      | none => g
    match (g.node rule1).prev with
    | some p =>
      if p ≠ rule2 ∧ ¬ (g.node p).symbol.isSequenceStart
      then Grammar.linkMade fuel g p else g
    | none => g

termination_by structural fuel _ _ _ => fuel
end

/-!
## The `Sequitur` engine (src/sequitur.rs)
-/

/-- `Sequitur<T>` (src/sequitur.rs): grammar storage plus the main-sequence
end sentinel and the input length. -/
structure Sequitur where
  grammar : Grammar
  sequenceEnd : Key
  length : Nat

/-- The empty grammar storage backing a fresh engine. -/
def Grammar.empty : Grammar :=
  ⟨[], 0, [], [], IdGenerator.new⟩

/-- `Sequitur::new` (src/sequitur.rs): creates Rule 0 with an empty
`RuleHead → RuleTail` body (the tail is created first, as in the source). -/
def Sequitur.new : Sequitur :=
  let g := Grammar.empty
  let (ruleId, idGen) := g.idGen.get  -- `assert_eq!(rule_id, 0)` holds
  let g := { g with idGen := idGen }
  let (g, tailKey) := g.insertNode (.mk' .ruleTail)
  let (g, headKey) := g.insertNode (.mk' (.ruleHead ruleId 0 tailKey))
  let g := g.setNext headKey (some tailKey)
  let g := g.setPrev tailKey (some headKey)
  let g := g.ruleInsert ruleId headKey
  ⟨g, tailKey, 0⟩

/-- `Sequitur::push` (src/sequitur.rs). -/
def Sequitur.push (fuel : Nat) (s : Sequitur) (value : Nat) : Sequitur :=
  let (g, newKey) := s.grammar.insertNode (.mk' (.value value))
  let tailKey := s.sequenceEnd
  let prevKey := (g.node tailKey).prev
  let g := g.setNext newKey (some tailKey)
  let g := g.setPrev newKey prevKey
  let g := g.setPrev tailKey (some newKey)
  let g := match prevKey with
    | some p => g.setNext p (some newKey)
    | none => g
  let length := s.length + 1
  let g :=
    if length > 1 then
      match prevKey with
      | some p =>
        if ¬ (g.node p).symbol.isSequenceStart then Grammar.linkMade fuel g p else g
      | none => g
    else g
  ⟨g, s.sequenceEnd, length⟩

/-- `Sequitur::extend` (src/sequitur.rs): push every value in order. -/
def Sequitur.extend (fuel : Nat) (s : Sequitur) (values : List Nat) : Sequitur :=
  values.foldl (fun acc v => acc.push fuel v) s

/-- Build an engine from an input sequence: `Sequitur::new` + `extend`. -/
def Sequitur.ofList (fuel : Nat) (values : List Nat) : Sequitur :=
  Sequitur.new.extend fuel values

/-- One rule's contribution to `stats`: the source walks `head.next` and
counts every node that still has a successor (i.e. body length excluding the
tail).  The walk is bounded by `fuel`; `stats` passes `fresh + 1`, an upper
bound on the length of any repetition-free chain in the arena. -/
def Grammar.bodyCount : Nat → Grammar → Option Key → Nat
  | 0, _, _ => 0
  | _, _, none => 0
  | fuel + 1, g, some key =>
    match (g.node key).next with
    | some nx => 1 + Grammar.bodyCount fuel g (some nx)
    | none => 0

/-- `CompressionStats` (src/sequitur.rs). -/
structure CompressionStats where
  inputLength : Nat
  grammarSymbols : Nat
  numRules : Nat
deriving Repr, DecidableEq

/-- `Sequitur::stats` (src/sequitur.rs). -/
def Sequitur.stats (s : Sequitur) : CompressionStats :=
  let total := (s.grammar.ruleIndex.map
    (fun p => Grammar.bodyCount (s.grammar.fresh + 1) s.grammar (s.grammar.node p.2).next)).sum
  ⟨s.length, total, s.grammar.ruleIndex.length⟩

/-- `Sequitur::rules().len()` — the number of entries of the rule index. -/
def Sequitur.numRules (s : Sequitur) : Nat := s.grammar.ruleIndex.length

/-!
## The reconstruction iterator (src/iter.rs)
-/

/-- `SequiturIter::resolve_forward` (src/iter.rs): advance to the next
`Value` position, descending into rules through the explicit stack.  The
`fuel` bounds the recursion depth (the source recursion terminates on
well-formed states). -/
def Grammar.resolveForward : Nat → Grammar → Key → List Key → Option (Key × List Key)
  | 0, _, _, _ => none
  | fuel + 1, g, key, stack =>
    match (g.node key).symbol with
    | .value _ => some (key, stack)
    | .ruleRef ruleId =>
      let stack := key :: stack
      match g.ruleLookup ruleId with
      | none => none  -- `*rule_index.get(rule_id)?`
      | some ruleHead =>
        match (g.node ruleHead).next with
        | none => none  -- `symbols[rule_head].next?`
        | some ruleFirst => Grammar.resolveForward fuel g ruleFirst stack
    | .ruleHead _ _ _ =>
      match (g.node key).next with
      | none => none
      | some nx => Grammar.resolveForward fuel g nx stack
    | .ruleTail =>
      match stack with
      | parent :: stack =>
        match (g.node parent).next with
        | none => none
        | some nx => Grammar.resolveForward fuel g nx stack
      | [] => none

/-- Driving `SequiturIter::next` (src/iter.rs) to exhaustion: collect the
emitted terminals.  `fuel` bounds the number of emitted items and the
per-step `resolve_forward` depth. -/
def Grammar.iterLoop : Nat → Grammar → Option (Key × List Key) → List Nat
  | 0, _, _ => []
  | _, _, none => []
  | fuel + 1, g, some (cur, stack) =>
    match (g.node cur).symbol with
    | .value v =>
      match (g.node cur).next with
      | none => []  -- `self.symbols[current_key].next?`
      | some nextKey =>
        v :: Grammar.iterLoop fuel g (Grammar.resolveForward (fuel + 1) g nextKey stack)
    | _ => []  -- `unreachable!()`

/-- `Sequitur::iter` collected to a list (src/iter.rs `SequiturIter::new`
plus the `Iterator` implementation). -/
def Sequitur.iterToList (fuel : Nat) (s : Sequitur) : List Nat :=
  match s.grammar.ruleLookup 0 with
  | none => []  -- `.expect("Rule 0 should exist")`
  | some rule0Head =>
    match (s.grammar.node rule0Head).next with
    | none => []  -- `.expect("Rule 0 should have content")`
    | some start =>
      Grammar.iterLoop fuel s.grammar (Grammar.resolveForward fuel s.grammar start [])

/-!
## The RLE engine (src/rle_symbol.rs, src/rle_grammar.rs)
-/

/-- `RleSymbolNode<T>` (src/rle_symbol.rs): a node carrying a run count
(`run ≥ 1`; `RleSymbolNode::new` sets `run = 1`). -/
structure RleSymbolNode where
  symbol : Symbol
  run : Nat
  prev : Option Key
  next : Option Key
deriving Repr, DecidableEq

/-- `RleSymbolNode::new`. -/
def RleSymbolNode.mk' (s : Symbol) : RleSymbolNode := ⟨s, 1, none, none⟩

/-- The dummy node for the panicking stale-key path. -/
def RleSymbolNode.dummy : RleSymbolNode := ⟨.ruleTail, 1, none, none⟩

/-- `RleGrammar<T>` (src/rle_grammar.rs).  The digram key
(`RleDigramKey::from_symbols`) ignores run counts, exactly as `SymbolHash`
does. -/
structure RleGrammar where
  symbols : List (Key × Option RleSymbolNode)
  fresh : Key
  digramIndex : List ((SymbolHash × SymbolHash) × Option Key)
  ruleIndex : List (Nat × Key)
  idGen : IdGenerator

/-- `RleGrammar::new`. -/
def RleGrammar.new : RleGrammar :=
  ⟨[], 0, [], [], IdGenerator.new⟩

/-- Total arena lookup; dummy node on the (panicking) stale-key path. -/
def RleGrammar.node (g : RleGrammar) (k : Key) : RleSymbolNode :=
  (mapFind g.symbols k).getD RleSymbolNode.dummy

/-- `self.symbols.contains_key(k)`. -/
def RleGrammar.contains (g : RleGrammar) (k : Key) : Bool := (mapFind g.symbols k).isSome

/-- `self.symbols.insert(node)`. -/
def RleGrammar.insertNode (g : RleGrammar) (n : RleSymbolNode) : RleGrammar × Key :=
  ({ g with
      symbols := (g.fresh, some n) :: g.symbols,
      fresh := g.fresh + 1 }, g.fresh)

/-- `self.symbols.remove(k)`. -/
def RleGrammar.removeNode (g : RleGrammar) (k : Key) : RleGrammar :=
  { g with symbols := (k, none) :: g.symbols }

/-- Overwrite the node stored at a (live) key. -/
def RleGrammar.setNode (g : RleGrammar) (k : Key) (n : RleSymbolNode) : RleGrammar :=
  { g with symbols := (k, some n) :: g.symbols }

/-- `self.symbols[k].next = v`. -/
def RleGrammar.setNext (g : RleGrammar) (k : Key) (v : Option Key) : RleGrammar :=
  g.setNode k { g.node k with next := v }

/-- `self.symbols[k].prev = v`. -/
def RleGrammar.setPrev (g : RleGrammar) (k : Key) (v : Option Key) : RleGrammar :=
  g.setNode k { g.node k with prev := v }

/-- `self.symbols[k].symbol = s`. -/
def RleGrammar.setSym (g : RleGrammar) (k : Key) (s : Symbol) : RleGrammar :=
  g.setNode k { g.node k with symbol := s }

/-- `self.symbols[k].run = r`. -/
def RleGrammar.setRun (g : RleGrammar) (k : Key) (r : Nat) : RleGrammar :=
  g.setNode k { g.node k with run := r }

/-- `self.digram_index.insert(h, k)`. -/
def RleGrammar.digramInsert (g : RleGrammar) (h : SymbolHash × SymbolHash) (k : Key) :
    RleGrammar :=
  { g with digramIndex := (h, some k) :: g.digramIndex }

/-- Remove a digram-index entry. -/
def RleGrammar.digramErase (g : RleGrammar) (h : SymbolHash × SymbolHash) : RleGrammar :=
  { g with digramIndex := (h, none) :: g.digramIndex }

/-- `self.rule_index.get(&id)`. -/
def RleGrammar.ruleLookup (g : RleGrammar) (id : Nat) : Option Key :=
  (g.ruleIndex.find? (fun p => p.1 == id)).map (·.2)

/-- `self.rule_index.insert(id, k)`. -/
def RleGrammar.ruleInsert (g : RleGrammar) (id : Nat) (k : Key) : RleGrammar :=
  { g with ruleIndex := (id, k) :: g.ruleIndex.filter (fun p => p.1 ≠ id) }

/-- `self.rule_index.remove(&id)`. -/
def RleGrammar.ruleErase (g : RleGrammar) (id : Nat) : RleGrammar :=
  { g with ruleIndex := g.ruleIndex.filter (fun p => p.1 ≠ id) }

/-- `RleGrammar::remove_digram_from_index` (src/rle_grammar.rs). -/
def RleGrammar.removeDigramFromIndex (g : RleGrammar) (first : Key) : RleGrammar :=
  if (g.node first).symbol.isSequenceStart then g
  else
    match (g.node first).next with
    | none => g
    | some second =>
      if (g.node second).symbol.isSequenceEnd then g
      else
        let dk := ((g.node first).symbol.hashOf, (g.node second).symbol.hashOf)
        match mapFind g.digramIndex dk with
        | none => g
        | some k => if k = first then g.digramErase dk else g

/-- `RleGrammar::try_merge_with_next` (src/rle_grammar.rs): merge a node with
its successor when the payloads are equal (runs are added, no rule-count
change).  Returns whether a merge occurred; a `false` return leaves the state
unchanged, as in the source. -/
def RleGrammar.tryMergeWithNext (g : RleGrammar) (key : Key) : RleGrammar × Bool :=
  match (g.node key).next with
  | none => (g, false)
  | some nextKey =>
    if (g.node nextKey).symbol.isSequenceEnd then (g, false)
    else if ¬ (g.node key).symbol.equals (g.node nextKey).symbol then (g, false)
    else
      let g := match (g.node key).prev with
        | some p => g.removeDigramFromIndex p
        | none => g
      let g := g.removeDigramFromIndex key
      let g := g.removeDigramFromIndex nextKey
      let nextRun := (g.node nextKey).run
      let g := g.setRun key ((g.node key).run + nextRun)
      let afterNext := (g.node nextKey).next
      let g := g.setNext key afterNext
      let g := match afterNext with
        | some a => g.setPrev a (some key)
        | none => g
      (g.removeNode nextKey, true)

/-- `RleGrammar::split_node` (src/rle_grammar.rs): truncate `key` to
`firstRun` and insert a sibling after it carrying the remainder. -/
def RleGrammar.splitNode (g : RleGrammar) (key : Key) (firstRun : Nat) : RleGrammar × Key :=
  let totalRun := (g.node key).run
  let g := g.removeDigramFromIndex key
  let g := g.setRun key firstRun
  let secondRun := totalRun - firstRun
  let (g, secondKey) := g.insertNode ⟨(g.node key).symbol, secondRun, none, none⟩
  let afterFirst := (g.node key).next
  let g := g.setNext key (some secondKey)
  let g := g.setPrev secondKey (some key)
  let g := g.setNext secondKey afterFirst
  let g := match afterFirst with
    | some a => g.setPrev a (some secondKey)
    | none => g
  (g, secondKey)

/-- `RleGrammar::find_and_add_digram` (src/rle_grammar.rs): identical logic
to the standard engine; the key ignores run counts. -/
def RleGrammar.findAndAddDigram (g : RleGrammar) (first second : Key) :
    RleGrammar × Option Key :=
  if (g.node first).symbol.isSequenceStart ∨ (g.node second).symbol.isSequenceEnd then
    (g, none)
  else
    let dk := ((g.node first).symbol.hashOf, (g.node second).symbol.hashOf)
    match mapFind g.digramIndex dk with
    | none => (g.digramInsert dk first, none)
    | some otherFirst =>
      if otherFirst = first then (g, none)
      else if ¬ g.contains otherFirst then (g.digramInsert dk first, none)
      else
        match (g.node otherFirst).next with
        | none => (g, none)  -- `.expect("Digram first should have next")`
        | some otherSecond =>
          if otherSecond = first ∨ otherFirst = second then (g, none)
          else if (g.node first).symbol.equals (g.node otherFirst).symbol
                  ∧ (g.node second).symbol.equals (g.node otherSecond).symbol then
            (g, some otherFirst)
          else (g, none)

/-- `RleGrammar::get_complete_rule` (src/rle_grammar.rs): additionally
requires both body nodes to have run exactly 1. -/
def RleGrammar.getCompleteRule (g : RleGrammar) (first : Key) : Option Key :=
  match (g.node first).next with
  | none => none
  | some second =>
    if (g.node first).run ≠ 1 ∨ (g.node second).run ≠ 1 then none
    else
      match (g.node first).prev with
      | none => none
      | some prev =>
        match (g.node prev).symbol with
        | .ruleHead _ _ tail =>
          match (g.node second).next with
          | none => none
          | some afterSecond =>
            match (g.node afterSecond).symbol with
            | .ruleTail => if tail = afterSecond then some prev else none
            | _ => none
        | _ => none

/-- `RleGrammar::increment_rule_count`. -/
def RleGrammar.incrementRuleCount (g : RleGrammar) (headKey : Key) : RleGrammar :=
  match (g.node headKey).symbol with
  | .ruleHead ruleId count tail => g.setSym headKey (.ruleHead ruleId (count + 1) tail)
  | _ => g

/-- `RleGrammar::decrement_rule_count`. -/
def RleGrammar.decrementRuleCount (g : RleGrammar) (headKey : Key) : RleGrammar :=
  match (g.node headKey).symbol with
  | .ruleHead ruleId count tail => g.setSym headKey (.ruleHead ruleId (count - 1) tail)
  | _ => g

/-- `RleGrammar::increment_if_rule`: a `RuleRef` with run `r` increments the
referenced rule's count `r` times. -/
def RleGrammar.incrementIfRule (g : RleGrammar) (k : Key) : RleGrammar :=
  match (g.node k).symbol with
  | .ruleRef ruleId =>
    let run := (g.node k).run
    match g.ruleLookup ruleId with
    | some headKey => (List.range run).foldl (fun g _ => g.incrementRuleCount headKey) g
    | none => g
  | _ => g

/-- `RleGrammar::decrement_if_rule`. -/
def RleGrammar.decrementIfRule (g : RleGrammar) (k : Key) : RleGrammar :=
  match (g.node k).symbol with
  | .ruleRef ruleId =>
    let run := (g.node k).run
    match g.ruleLookup ruleId with
    | some headKey => (List.range run).foldl (fun g _ => g.decrementRuleCount headKey) g
    | none => g
  | _ => g

/-- `RleGrammar::prepare_digram_for_rule` (src/rle_grammar.rs): split the
first node from its right and the second from its left so both carry the
target runs. -/
def RleGrammar.prepareDigramForRule (g : RleGrammar) (first targetFirstRun targetSecondRun : Nat) :
    RleGrammar × Key × Key :=
  match (g.node first).next with
  | none => (g, first, first)  -- `.unwrap()`
  | some secondKey0 =>
    let (g, firstKey, secondKey) :=
      if (g.node first).run > targetFirstRun then
        let remaining := (g.node first).run - targetFirstRun
        let (g, newKey) := g.splitNode first remaining
        match (g.node newKey).next with
        | some s2 => (g, newKey, s2)
        | none => (g, newKey, secondKey0)  -- `.unwrap()`
      else (g, first, secondKey0)
    if (g.node secondKey).run > targetSecondRun then
      let (g, _) := g.splitNode secondKey targetSecondRun
      (g, firstKey, secondKey)
    else (g, firstKey, secondKey)

/-- `try_merge_with_next` guarded on the predecessor, as used in
`check_new_links_pair`'s first loop. -/
def RleGrammar.mergeAtPrev (g : RleGrammar) (key : Key) : RleGrammar :=
  if ¬ g.contains key then g
  else
    match (g.node key).prev with
    | some p =>
      if ¬ (g.node p).symbol.isSequenceStart then (g.tryMergeWithNext p).1 else g
    | none => g

/-- `try_merge_with_next` guarded on the successor, as used in
`check_new_links_pair`'s second loop. -/
def RleGrammar.mergeAtNext (g : RleGrammar) (key : Key) : RleGrammar :=
  if ¬ g.contains key then g
  else
    match (g.node key).next with
    | some nx =>
      if ¬ (g.node nx).symbol.isSequenceEnd then (g.tryMergeWithNext key).1 else g
    | none => g

mutual

/-- `RleGrammar::link_made` (src/rle_grammar.rs): first try to merge equal
neighbours, then look for a duplicate digram. -/
def RleGrammar.linkMade : Nat → RleGrammar → Key → RleGrammar
  | 0, g, _ => g
  | fuel + 1, g, firstKey =>
    let (g, merged) := g.tryMergeWithNext firstKey
    if merged then
      let g := match (g.node firstKey).prev with
        | some p =>
          if ¬ (g.node p).symbol.isSequenceStart then
            let (g, m) := g.findAndAddDigram p firstKey
            match m with
            | some _ => RleGrammar.handleDuplicateDigram fuel g p
            | none => g
          else g
        | none => g
      match (g.node firstKey).next with
      | some nx =>
        if ¬ (g.node nx).symbol.isSequenceEnd then
          let (g, m) := g.findAndAddDigram firstKey nx
          match m with
          | some _ => RleGrammar.handleDuplicateDigram fuel g firstKey
          | none => g
        else g
      | none => g
    else
      match (g.node firstKey).next with
      | none => g
      | some secondKey =>
        let (g, m) := g.findAndAddDigram firstKey secondKey
        match m with
        | some matchKey => RleGrammar.handleDuplicateDigramWithMatch fuel g firstKey matchKey
        | none => g

termination_by structural fuel _ _ => fuel
/-- `RleGrammar::handle_duplicate_digram` (src/rle_grammar.rs). -/
def RleGrammar.handleDuplicateDigram : Nat → RleGrammar → Key → RleGrammar
  | 0, g, _ => g
  | fuel + 1, g, firstKey =>
    match (g.node firstKey).next with
    | none => g  -- `.unwrap()`
    | some secondKey =>
      let dk := ((g.node firstKey).symbol.hashOf, (g.node secondKey).symbol.hashOf)
      match mapFind g.digramIndex dk with
      | some matchKey =>
        if matchKey ≠ firstKey ∧ g.contains matchKey then
          RleGrammar.handleDuplicateDigramWithMatch fuel g firstKey matchKey
        else g
      | none => g

termination_by structural fuel _ _ => fuel
/-- `RleGrammar::handle_duplicate_digram_with_match` (src/rle_grammar.rs):
reuse the matched rule only when it is a complete run-1 rule and our digram
also has run 1 on both nodes; otherwise create a new rule. -/
def RleGrammar.handleDuplicateDigramWithMatch : Nat → RleGrammar → Key → Key → RleGrammar
  | 0, g, _, _ => g
  | fuel + 1, g, firstKey, matchKey =>
    let viaRule : Option Key :=
      match g.getCompleteRule matchKey with
      | some ruleHeadKey =>
        match (g.node firstKey).next with
        | none => none  -- `.unwrap()`
        | some secondKey =>
          if (g.node firstKey).run = 1 ∧ (g.node secondKey).run = 1 then some ruleHeadKey
          else none
      | none => none
    match viaRule with
    | some ruleHeadKey =>
      let (g, newKey) := RleGrammar.swapForExistingRule fuel g firstKey ruleHeadKey
      RleGrammar.checkNewLinks fuel g newKey
    | none =>
      let (g, loc1, loc2) := RleGrammar.swapForNewRule fuel g firstKey matchKey
      RleGrammar.checkNewLinksPair fuel g loc1 loc2

termination_by structural fuel _ _ _ => fuel
/-- `RleGrammar::swap_for_new_rule` (src/rle_grammar.rs): normalise runs to
the per-position minima by node splitting, then create the rule. -/
def RleGrammar.swapForNewRule : Nat → RleGrammar → Key → Key → RleGrammar × Key × Key
  | 0, g, m1, m2 => (g, m1, m2)
  | fuel + 1, g, match1, match2 =>
    match (g.node match1).next with
    | none => (g, match1, match2)  -- `.unwrap()`
    | some match1Second =>
      match (g.node match2).next with
      | none => (g, match1, match2)  -- `.unwrap()`
      | some match2Second =>
        let firstRun := min (g.node match1).run (g.node match2).run
        let secondRun := min (g.node match1Second).run (g.node match2Second).run
        let (g, m1First, m1Second) := g.prepareDigramForRule match1 firstRun secondRun
        let (g, m2First, _) := g.prepareDigramForRule match2 firstRun secondRun
        let (ruleId, idGen) := g.idGen.get
        let g := { g with idGen := idGen }
        let (g, tailKey) := g.insertNode (.mk' .ruleTail)
        let (g, headKey) := g.insertNode (.mk' (.ruleHead ruleId 0 tailKey))
        let (g, ruleFirst) := g.insertNode ⟨(g.node m1First).symbol, firstRun, none, none⟩
        let (g, ruleSecond) := g.insertNode ⟨(g.node m1Second).symbol, secondRun, none, none⟩
        let g := g.setNext headKey (some ruleFirst)
        let g := g.setPrev ruleFirst (some headKey)
        let g := g.setNext ruleFirst (some ruleSecond)
        let g := g.setPrev ruleSecond (some ruleFirst)
        let g := g.setNext ruleSecond (some tailKey)
        let g := g.setPrev tailKey (some ruleSecond)
        let g := g.removeDigramFromIndex m1First
        let g := g.removeDigramFromIndex m2First
        let dk := ((g.node ruleFirst).symbol.hashOf, (g.node ruleSecond).symbol.hashOf)
        let g := g.digramInsert dk ruleFirst
        let g := g.ruleInsert ruleId headKey
        let g := g.incrementIfRule ruleFirst
        let g := g.incrementIfRule ruleSecond
        let (g, loc1) := RleGrammar.swapForExistingRule fuel g m1First headKey
        let (g, loc2) := RleGrammar.swapForExistingRule fuel g m2First headKey
        (g, loc1, loc2)

termination_by structural fuel _ _ _ => fuel
/-- `RleGrammar::swap_for_existing_rule` (src/rle_grammar.rs): the RuleRef is
created with run 1; the second rule-body expansion re-fetches positions. -/
def RleGrammar.swapForExistingRule : Nat → RleGrammar → Key → Key → RleGrammar × Key
  | 0, g, first, _ => (g, first)
  | fuel + 1, g, first, ruleHead =>
    match (g.node first).next with
    | none => (g, first)  -- `.expect("first should have next")`
    | some second =>
      let beforeDigram := (g.node first).prev
      let afterDigram := (g.node second).next
      let g := match beforeDigram with
        | some p => g.removeDigramFromIndex p
        | none => g
      let g := g.removeDigramFromIndex second
      let g := g.decrementIfRule first
      let g := g.decrementIfRule second
      let ruleId := match (g.node ruleHead).symbol with
        | .ruleHead rid _ _ => rid
        | _ => 0  -- `unreachable!()`
      let (g, newRuleKey) := g.insertNode (.mk' (.ruleRef ruleId))
      let g := g.setPrev newRuleKey beforeDigram
      let g := g.setNext newRuleKey afterDigram
      let g := match beforeDigram with
        | some p => g.setNext p (some newRuleKey)
        | none => g
      let g := match afterDigram with
        | some n => g.setPrev n (some newRuleKey)
        | none => g
      let g := g.incrementRuleCount ruleHead
      let g := g.removeNode first
      let g := g.removeNode second
      match (g.node ruleHead).next with
      | none => (g, newRuleKey)  -- `.expect("RuleHead should have next")`
      | some ruleFirst =>
        let g := RleGrammar.expandRuleIfNecessary fuel g ruleFirst
        match (g.node ruleHead).next with
        | none => (g, newRuleKey)
        | some currentFirst =>
          match (g.node currentFirst).next with
          | none => (g, newRuleKey)
          | some ruleSecond =>
            match (g.node ruleSecond).symbol with
            | .ruleTail => (g, newRuleKey)
            | _ => (RleGrammar.expandRuleIfNecessary fuel g ruleSecond, newRuleKey)

termination_by structural fuel _ _ _ => fuel
/-- `RleGrammar::expand_rule_if_necessary` (src/rle_grammar.rs): expand only
a run-1 RuleRef to a count-1 rule; at the joints, try merging before
re-running `link_made`. -/
def RleGrammar.expandRuleIfNecessary : Nat → RleGrammar → Key → RleGrammar
  | 0, g, _ => g
  | fuel + 1, g, potentialRule =>
    match (g.node potentialRule).symbol with
    | .ruleRef ruleId =>
      if (g.node potentialRule).run ≠ 1 then g
      else
        match g.ruleLookup ruleId with
        | none => g
        | some ruleHead =>
          let count := match (g.node ruleHead).symbol with
            | .ruleHead _ c _ => c
            | _ => 0  -- `unreachable!()`
          if count ≠ 1 then g
          else
            match (g.node ruleHead).next with
            | none => g  -- `.expect`
            | some ruleFirst =>
              let ruleTailKey := match (g.node ruleHead).symbol with
                | .ruleHead _ _ t => t
                | _ => 0  -- `unreachable!()`
              match (g.node ruleTailKey).prev with
              | none => g  -- `.expect`
              | some ruleLast =>
                let beforeRule := (g.node potentialRule).prev
                let afterRule := (g.node potentialRule).next
                let g := match beforeRule with
                  | some p => g.removeDigramFromIndex p
                  | none => g
                let g := g.removeDigramFromIndex potentialRule
                let g := g.ruleErase ruleId
                let g := { g with idGen := g.idGen.freeU ruleId }
                let g := g.setNext ruleHead none
                let g := g.setPrev ruleFirst none
                let g := g.setNext ruleLast none
                let g := g.setPrev ruleTailKey none
                let g := g.removeNode ruleHead
                let g := g.removeNode ruleTailKey
                let g := g.setPrev ruleFirst beforeRule
                let g := g.setNext ruleLast afterRule
                let g := match beforeRule with
                  | some p => g.setNext p (some ruleFirst)
                  | none => g
                let g := match afterRule with
                  | some n => g.setPrev n (some ruleLast)
                  | none => g
                let g := g.removeNode potentialRule
                let g := match beforeRule with
                  | some p =>
                    if ¬ (g.node p).symbol.isSequenceStart then
                      let (g, merged) := g.tryMergeWithNext p
                      if merged then g else RleGrammar.linkMade fuel g p
                    else g
                  | none => g
                match afterRule with
                | some a =>
                  if ¬ (g.node a).symbol.isSequenceEnd then
                    if g.contains ruleLast then
                      let (g, merged) := g.tryMergeWithNext ruleLast
                      if merged then g else RleGrammar.linkMade fuel g ruleLast
                    else g
                  else g
                | none => g
    | _ => g

termination_by structural fuel _ _ => fuel
/-- `RleGrammar::check_new_links` (src/rle_grammar.rs): try merges first
(recursing into itself after a merge), then the standard digram checks. -/
def RleGrammar.checkNewLinks : Nat → RleGrammar → Key → RleGrammar
  | 0, g, _ => g
  | fuel + 1, g, ruleKey =>
    if ¬ g.contains ruleKey then g
    else
      let step1 : RleGrammar × Option Key :=
        match (g.node ruleKey).prev with
        | some p =>
          if ¬ (g.node p).symbol.isSequenceStart then
            let (g, merged) := g.tryMergeWithNext p
            (g, if merged then some p else none)
          else (g, none)
        | none => (g, none)
      match step1 with
      | (g, some p) => RleGrammar.checkNewLinks fuel g p
      | (g, none) =>
        if ¬ g.contains ruleKey then g
        else
          let step2 : RleGrammar × Bool :=
            match (g.node ruleKey).next with
            | some nx =>
              if ¬ (g.node nx).symbol.isSequenceEnd then g.tryMergeWithNext ruleKey
              else (g, false)
            | none => (g, false)
          match step2 with
          | (g, true) => RleGrammar.checkNewLinks fuel g ruleKey
          | (g, false) =>
            let g := match (g.node ruleKey).prev with
              | some p =>
                if ¬ (g.node p).symbol.isSequenceStart then RleGrammar.linkMade fuel g p else g
              | none => g
            if ¬ g.contains ruleKey then g
            else
              match (g.node ruleKey).next with
              | some nx =>
                if ¬ (g.node nx).symbol.isSequenceEnd
                    ∧ ¬ (g.node ruleKey).symbol.isSequenceStart
                then RleGrammar.linkMade fuel g ruleKey else g
              | none => g

termination_by structural fuel _ _ => fuel
/-- `RleGrammar::check_new_links_pair` (src/rle_grammar.rs). -/
def RleGrammar.checkNewLinksPair : Nat → RleGrammar → Key → Key → RleGrammar
  | 0, g, _, _ => g
  | fuel + 1, g, rule1, rule2 =>
    let g := g.mergeAtPrev rule1
    let g := g.mergeAtPrev rule2
    let g := g.mergeAtNext rule1
    let g := g.mergeAtNext rule2
    let g :=
      if g.contains rule1 then
        match (g.node rule1).next with
        | some nx =>
          if ¬ (g.node nx).symbol.isSequenceEnd ∧ ¬ (g.node rule1).symbol.isSequenceStart
          then RleGrammar.linkMade fuel g rule1 else g
        | none => g
      else g
    let g :=
      if g.contains rule2 then
        match (g.node rule2).next with
        | some nx =>
          if ¬ (g.node nx).symbol.isSequenceEnd ∧ ¬ (g.node rule2).symbol.isSequenceStart
          then RleGrammar.linkMade fuel g rule2 else g
        | none => g
      else g
    let g :=
      if g.contains rule2 then
        match (g.node rule2).prev with
        | some p =>
          if g.contains rule1 ∧ p ≠ rule1 ∧ ¬ (g.node p).symbol.isSequenceStart
          then RleGrammar.linkMade fuel g p else g
        | none => g
      else g
    if g.contains rule1 then
      match (g.node rule1).prev with
      | some p =>
        if g.contains rule2 ∧ p ≠ rule2 ∧ ¬ (g.node p).symbol.isSequenceStart
        then RleGrammar.linkMade fuel g p else g
      | none => g
    else g

termination_by structural fuel _ _ _ => fuel
end

/-!
## The `SequiturRle` engine (src/rle_sequitur.rs)
-/

/-- `SequiturRle<T>` (src/rle_sequitur.rs). -/
structure SequiturRle where
  grammar : RleGrammar
  sequenceEnd : Key
  length : Nat

/-- `SequiturRle::new`. -/
def SequiturRle.new : SequiturRle :=
  let g := RleGrammar.new
  let (ruleId, idGen) := g.idGen.get  -- `assert_eq!(rule_id, 0)` holds
  let g := { g with idGen := idGen }
  let (g, tailKey) := g.insertNode (.mk' .ruleTail)
  let (g, headKey) := g.insertNode (.mk' (.ruleHead ruleId 0 tailKey))
  let g := g.setNext headKey (some tailKey)
  let g := g.setPrev tailKey (some headKey)
  let g := g.ruleInsert ruleId headKey
  ⟨g, tailKey, 0⟩

/-- `SequiturRle::push` (src/rle_sequitur.rs): if the node before the end
sentinel carries the same value, just increment its run (no `link_made`);
otherwise append a new node and run `link_made` on the predecessor. -/
def SequiturRle.push (fuel : Nat) (s : SequiturRle) (value : Nat) : SequiturRle :=
  let tailKey := s.sequenceEnd
  let prevKey := (s.grammar.node tailKey).prev
  let absorb : Bool :=
    match prevKey with
    | some prev =>
      match (s.grammar.node prev).symbol with
      | .value pv => pv == value
      | _ => false
    | none => false
  if absorb then
    match prevKey with
    | some prev =>
      ⟨s.grammar.setRun prev ((s.grammar.node prev).run + 1), tailKey, s.length + 1⟩
    | none => s  -- unreachable: `absorb` implies `prevKey.isSome`
  else
    let (g, newKey) := s.grammar.insertNode (.mk' (.value value))
    let g := g.setNext newKey (some tailKey)
    let g := g.setPrev newKey prevKey
    let g := g.setPrev tailKey (some newKey)
    let g := match prevKey with
      | some p => g.setNext p (some newKey)
      | none => g
    let length := s.length + 1
    let g := match prevKey with
      | some p =>
        match (g.node p).symbol with
        | .ruleHead _ _ _ => g
        | _ => RleGrammar.linkMade fuel g p
      | none => g
    ⟨g, tailKey, length⟩

/-- `SequiturRle::extend`. -/
def SequiturRle.extend (fuel : Nat) (s : SequiturRle) (values : List Nat) : SequiturRle :=
  values.foldl (fun acc v => acc.push fuel v) s

/-- Build an RLE engine from an input sequence. -/
def SequiturRle.ofList (fuel : Nat) (values : List Nat) : SequiturRle :=
  SequiturRle.new.extend fuel values

/-- One rule's contribution to `SequiturRle::stats`: pairs of
(node count, run sum) along the body. -/
def RleGrammar.bodyCountRuns : Nat → RleGrammar → Option Key → Nat × Nat
  | 0, _, _ => (0, 0)
  | _, _, none => (0, 0)
  | fuel + 1, g, some key =>
    match (g.node key).next with
    | some nx =>
      let (n, r) := RleGrammar.bodyCountRuns fuel g (some nx)
      (n + 1, r + (g.node key).run)
    | none => (0, 0)

/-- `RleCompressionStats` (src/rle_sequitur.rs). -/
structure RleCompressionStats where
  inputLength : Nat
  grammarNodes : Nat
  grammarSymbolsExpanded : Nat
  numRules : Nat
deriving Repr, DecidableEq

/-- `SequiturRle::stats` (src/rle_sequitur.rs). -/
def SequiturRle.stats (s : SequiturRle) : RleCompressionStats :=
  let per := s.grammar.ruleIndex.map
    (fun p => RleGrammar.bodyCountRuns (s.grammar.fresh + 1) s.grammar (s.grammar.node p.2).next)
  ⟨s.length, (per.map (·.1)).sum, (per.map (·.2)).sum, s.grammar.ruleIndex.length⟩

/-!
## The RLE reconstruction iterator (src/rle_iter.rs)
-/

/-- `StackEntry` (src/rle_iter.rs). -/
structure RleStackEntry where
  key : Key
  remainingRun : Nat
deriving Repr, DecidableEq

/-- `RleSequiturIter::resolve_to_value` (src/rle_iter.rs): advance to the
next `Value` node, replaying run counts of `RuleRef` nodes through the
stack; returns the node, its run, and the stack. -/
def RleGrammar.resolveToValue : Nat → RleGrammar → Key → List RleStackEntry →
    Option (Key × Nat × List RleStackEntry)
  | 0, _, _, _ => none
  | fuel + 1, g, key, stack =>
    match (g.node key).symbol with
    | .value _ => some (key, (g.node key).run, stack)
    | .ruleRef ruleId =>
      let run := (g.node key).run
      let stack := ⟨key, run⟩ :: stack
      match g.ruleLookup ruleId with
      | none => none  -- `.expect("Rule should exist")`
      | some ruleHead =>
        match (g.node ruleHead).next with
        | none => none  -- `.expect("Rule should have content")`
        | some ruleFirst => RleGrammar.resolveToValue fuel g ruleFirst stack
    | .ruleHead _ _ _ =>
      match (g.node key).next with
      | none => none  -- `.expect("Head should have next")`
      | some nx => RleGrammar.resolveToValue fuel g nx stack
    | .ruleTail =>
      match stack with
      | [] => none
      | entry :: rest =>
        let newRemaining := entry.remainingRun - 1
        if newRemaining > 0 then
          match (g.node entry.key).symbol with
          | .ruleRef ruleId =>
            match g.ruleLookup ruleId with
            | none => none  -- `.expect("Rule should exist")`
            | some ruleHead =>
              match (g.node ruleHead).next with
              | none => none  -- `.expect("Rule should have content")`
              | some ruleFirst =>
                RleGrammar.resolveToValue fuel g ruleFirst (⟨entry.key, newRemaining⟩ :: rest)
          | _ =>
            -- not a RuleRef: the source falls through with the re-pushed entry
            match (g.node entry.key).next with
            | none => none
            | some nx =>
              RleGrammar.resolveToValue fuel g nx (⟨entry.key, newRemaining⟩ :: rest)
        else
          match (g.node entry.key).next with
          | none => none
          | some nx => RleGrammar.resolveToValue fuel g nx rest

/-- Driving `RleSequiturIter::next`/`advance` to exhaustion.  A `Value` node
with run `r` is emitted `r` times before advancing. -/
def RleGrammar.rleIterLoop : Nat → RleGrammar → Option (Key × Nat × List RleStackEntry) →
    List Nat
  | 0, _, _ => []
  | _, _, none => []
  | fuel + 1, g, some (cur, remRun, stack) =>
    match (g.node cur).symbol with
    | .value v =>
      if remRun > 1 then v :: RleGrammar.rleIterLoop fuel g (some (cur, remRun - 1, stack))
      else
        match (g.node cur).next with
        | none => [v]  -- `advance` sets `current = None` after emitting
        | some nx =>
          v :: RleGrammar.rleIterLoop fuel g (RleGrammar.resolveToValue (fuel + 1) g nx stack)
    | _ => []  -- `unreachable!()`

/-- `SequiturRle::iter` collected to a list (src/rle_iter.rs). -/
def SequiturRle.iterToList (fuel : Nat) (s : SequiturRle) : List Nat :=
  match s.grammar.ruleLookup 0 with
  | none => []  -- `.expect("Rule 0 should exist")`
  | some rule0Head =>
    match (s.grammar.node rule0Head).next with
    | none => []  -- `.expect("Rule 0 should have content")`
    | some start =>
      RleGrammar.rleIterLoop fuel s.grammar (RleGrammar.resolveToValue fuel s.grammar start [])

/-!
## The RePair engine (src/repair.rs)
-/

/-- `PairSymbolId` (src/repair.rs): interned terminal index or rule id. -/
inductive PairSymbolId where
  | terminal (idx : Nat)
  | ruleRefId (ruleId : Nat)
deriving Repr, DecidableEq

/-- A pair key `(PairSymbolId, PairSymbolId)`. -/
abbrev PairKey := PairSymbolId × PairSymbolId

/-- `PairRecord` (src/repair.rs). -/
structure PairRecord where
  frequency : Nat
  firstOccurrence : Option Key
  lastOccurrence : Option Key
deriving Repr, DecidableEq

/-- `PairThread` (src/repair.rs). -/
structure PairThread where
  nextSamePair : Option Key
  prevSamePair : Option Key
deriving Repr, DecidableEq

/-- `PairThread::default()`. -/
def PairThread.default : PairThread := ⟨none, none⟩

/-- `PriorityQueue` (src/repair.rs): buckets indexed by frequency.  A Rust
`Vec` pushes and pops at its end (LIFO); a bucket is modelled as a list with
cons as push and head as pop. -/
structure PriorityQueue where
  buckets : List (List PairKey)
  maxBucket : Nat
deriving Repr, DecidableEq

/-- `PriorityQueue::new`. -/
def PriorityQueue.new (maxFrequency : Nat) : PriorityQueue :=
  ⟨List.replicate (maxFrequency + 1) [], 0⟩

/-- `PriorityQueue::insert`, including the resize when the frequency exceeds
the current bucket count. -/
def PriorityQueue.insert (pq : PriorityQueue) (pair : PairKey) (freq : Nat) : PriorityQueue :=
  let buckets :=
    if freq ≥ pq.buckets.length then
      pq.buckets ++ List.replicate (freq + 1 - pq.buckets.length) []
    else pq.buckets
  let buckets := buckets.set freq (pair :: buckets.getD freq [])
  ⟨buckets, if freq > pq.maxBucket then freq else pq.maxBucket⟩

/-- The `while self.max_bucket > 0` descent of `PriorityQueue::pop_max`. -/
def PriorityQueue.popLoop : Nat → List (List PairKey) → Option (PriorityQueue × PairKey)
  | 0, buckets =>
    match buckets.getD 0 [] with
    | [] => none
    | p :: rest => some (⟨buckets.set 0 rest, 0⟩, p)
  | mb + 1, buckets =>
    match buckets.getD (mb + 1) [] with
    | p :: rest => some (⟨buckets.set (mb + 1) rest, mb + 1⟩, p)
    | [] => PriorityQueue.popLoop mb buckets

/-- `PriorityQueue::pop_max`. -/
def PriorityQueue.popMax (pq : PriorityQueue) : Option (PriorityQueue × PairKey) :=
  PriorityQueue.popLoop pq.maxBucket pq.buckets

/-- Association-list lookup for pair records (`pair_records.get(&pair)`). -/
def recordsFind (rs : List (PairKey × PairRecord)) (p : PairKey) : Option PairRecord :=
  (rs.find? (fun q => q.1 == p)).map (·.2)

/-- Association-list update: replace in place, or append (`entry/or_insert`
insertion; a Rust hash map's iteration order is unspecified, appending keeps
one admissible stable order). -/
def recordsSet (rs : List (PairKey × PairRecord)) (p : PairKey) (rec : PairRecord) :
    List (PairKey × PairRecord) :=
  if (rs.find? (fun q => q.1 == p)).isSome then
    rs.map (fun q => if q.1 == p then (p, rec) else q)
  else rs ++ [(p, rec)]

/-- `pair_records.remove(&pair)`. -/
def recordsErase (rs : List (PairKey × PairRecord)) (p : PairKey) :
    List (PairKey × PairRecord) :=
  rs.filter (fun q => q.1 != p)

/-- The threading map `pair_threads` (only ever looked up pointwise). -/
abbrev Threads := List (Key × Option PairThread)

/-- `pair_threads.insert(k, t)`. -/
def threadsSet (ts : Threads) (k : Key) (t : PairThread) : Threads :=
  (k, some t) :: ts

/-- `pair_threads.remove(&k)`. -/
def threadsErase (ts : Threads) (k : Key) : Threads :=
  (k, none) :: ts

/-- `Repair<T>` (src/repair.rs), with `T = Nat`. -/
structure Repair where
  symbols : List (Key × Option SymbolNode)
  fresh : Key
  ruleIndex : List (Nat × Key)
  idGen : IdGenerator
  sequenceEnd : Key
  length : Nat
  valuesDedup : List Nat
  valueToIndex : List (Nat × Option Nat)
  compressed : Bool

/-- Total arena lookup; dummy node on the (panicking) stale-key path. -/
def Repair.node (r : Repair) (k : Key) : SymbolNode := (mapFind r.symbols k).getD SymbolNode.dummy

/-- `self.symbols.contains_key(k)`. -/
def Repair.contains (r : Repair) (k : Key) : Bool := (mapFind r.symbols k).isSome

/-- `self.symbols.insert(node)`. -/
def Repair.insertNode (r : Repair) (n : SymbolNode) : Repair × Key :=
  ({ r with
      symbols := (r.fresh, some n) :: r.symbols,
      fresh := r.fresh + 1 }, r.fresh)

/-- `self.symbols.remove(k)`. -/
def Repair.removeNode (r : Repair) (k : Key) : Repair :=
  { r with symbols := (k, none) :: r.symbols }

/-- Overwrite the node stored at a key. -/
def Repair.setNode (r : Repair) (k : Key) (n : SymbolNode) : Repair :=
  { r with symbols := (k, some n) :: r.symbols }

/-- `self.symbols[k].next = v`. -/
def Repair.setNext (r : Repair) (k : Key) (v : Option Key) : Repair :=
  r.setNode k { r.node k with next := v }

/-- `self.symbols[k].prev = v`. -/
def Repair.setPrev (r : Repair) (k : Key) (v : Option Key) : Repair :=
  r.setNode k { r.node k with prev := v }

/-- `self.rule_index.get(&id)`. -/
def Repair.ruleLookup (r : Repair) (id : Nat) : Option Key :=
  (r.ruleIndex.find? (fun p => p.1 == id)).map (·.2)

/-- `Repair::new` (src/repair.rs): creates Rule 0 exactly as `Sequitur::new`
does. -/
def Repair.new : Repair :=
  let idGen := IdGenerator.new
  let (ruleId, idGen) := idGen.get  -- `debug_assert_eq!(rule_id, 0)` holds
  let tailKey := 0
  let headKey := 1
  let symbols : List (Key × Option SymbolNode) :=
    [(headKey, some ⟨.ruleHead ruleId 0 tailKey, none, some tailKey⟩),
     (tailKey, some ⟨.ruleTail, some headKey, none⟩)]
  { symbols := symbols, fresh := 2, ruleIndex := [(ruleId, headKey)], idGen := idGen,
    sequenceEnd := tailKey, length := 0, valuesDedup := [], valueToIndex := [],
    compressed := false }

/-- `Repair::get_or_create_value_index` (src/repair.rs). -/
def Repair.getOrCreateValueIndex (r : Repair) (value : Nat) : Repair × Nat :=
  match mapFind r.valueToIndex value with
  | some index => (r, index)
  | none =>
    let index := r.valuesDedup.length
    ({ r with
        valuesDedup := r.valuesDedup ++ [value],
        valueToIndex := (value, some index) :: r.valueToIndex }, index)

/-- `Repair::get_symbol_id` (src/repair.rs). -/
def Repair.getSymbolId (r : Repair) (key : Key) : Option PairSymbolId :=
  match (r.node key).symbol with
  | .value v => (mapFind r.valueToIndex v).map .terminal
  | .ruleRef ruleId => some (.ruleRefId ruleId)
  | _ => none

/-- `Repair::is_sentinel` (src/repair.rs). -/
def Repair.isSentinel (r : Repair) (key : Key) : Bool :=
  match (r.node key).symbol with
  | .ruleHead _ _ _ => true
  | .ruleTail => true
  | _ => false

/-- `Repair::push` (src/repair.rs): `assert!(!self.compressed)` — the
assertion failure (abort) is modelled as `none`. -/
def Repair.push (r : Repair) (value : Nat) : Option Repair :=
  if r.compressed then none
  else
    let (r, _) := r.getOrCreateValueIndex value
    let (r, newKey) := r.insertNode (.mk' (.value value))
    let tailKey := r.sequenceEnd
    let prevKey := (r.node tailKey).prev
    let r := r.setNext newKey (some tailKey)
    let r := r.setPrev newKey prevKey
    let r := r.setPrev tailKey (some newKey)
    let r := match prevKey with
      | some p => r.setNext p (some newKey)
      | none => r
    some { r with length := r.length + 1 }

/-- `Repair::extend` (src/repair.rs): push every value; aborts (`none`) as
soon as one push aborts. -/
def Repair.extend (r : Repair) (values : List Nat) : Option Repair :=
  values.foldlM (fun acc v => acc.push v) r

/-- One step of the `initialize_pair_structures` scan (src/repair.rs). -/
def Repair.initStep (r : Repair) (key : Key)
    (st : List (PairKey × PairRecord) × Threads) :
    List (PairKey × PairRecord) × Threads :=
  let (pairRecords, pairThreads) := st
  match r.getSymbolId key, (r.node key).next.bind (r.getSymbolId) with
  | some firstId, some secondId =>
    let pair := (firstId, secondId)
    let rec0 := (recordsFind pairRecords pair).getD ⟨0, none, none⟩
    let (thread, rec1, pairThreads) :=
      match rec0.lastOccurrence with
      | some last =>
        let pairThreads := match mapFind pairThreads last with
          | some t => threadsSet pairThreads last { t with nextSamePair := some key }
          | none => pairThreads
        (({ PairThread.default with prevSamePair := some last }), rec0, pairThreads)
      | none => (PairThread.default, { rec0 with firstOccurrence := some key }, pairThreads)
    let rec2 := { rec1 with lastOccurrence := some key, frequency := rec1.frequency + 1 }
    (recordsSet pairRecords pair rec2, threadsSet pairThreads key thread)
  | _, _ => st

/-- The walk of `initialize_pair_structures` (src/repair.rs) over Rule 0,
bounded by fuel (`fresh + 1` suffices for any repetition-free chain). -/
def Repair.initWalk : Nat → Repair → Option Key →
    List (PairKey × PairRecord) × Threads →
    List (PairKey × PairRecord) × Threads
  | 0, _, _, st => st
  | _, _, none, st => st
  | fuel + 1, r, some key, st =>
    match (r.node key).next with
    | none => st
    | some nextKey =>
      if r.isSentinel key ∨ r.isSentinel nextKey then
        Repair.initWalk fuel r (some nextKey) st
      else
        match r.getSymbolId key, r.getSymbolId nextKey with
        | some _, some _ =>
          Repair.initWalk fuel r (some nextKey) (r.initStep key st)
        | _, _ => Repair.initWalk fuel r (some nextKey) st

/-- `Repair::initialize_pair_structures` (src/repair.rs). -/
def Repair.initializePairStructures (r : Repair) :
    List (PairKey × PairRecord) × Threads :=
  match r.ruleLookup 0 with
  | none => ([], [])  -- `.expect("Rule 0 should exist")`
  | some headKey =>
    Repair.initWalk (r.fresh + 1) r ((r.node headKey).next) ([], [])

/-- `Repair::id_to_symbol` (src/repair.rs). -/
def Repair.idToSymbol (r : Repair) (id : PairSymbolId) : Symbol :=
  match id with
  | .terminal index => .value (r.valuesDedup.getD index 0)
  | .ruleRefId ruleId => .ruleRef ruleId

/-- `Repair::create_rule_for_pair` (src/repair.rs). -/
def Repair.createRuleForPair (r : Repair) (pair : PairKey) : Repair × Nat :=
  let (ruleId, idGen) := r.idGen.get
  let r := { r with idGen := idGen }
  let (r, tailKey) := r.insertNode (.mk' .ruleTail)
  let (r, headKey) := r.insertNode (.mk' (.ruleHead ruleId 0 tailKey))
  let (r, ruleFirst) := r.insertNode (.mk' (r.idToSymbol pair.1))
  let (r, ruleSecond) := r.insertNode (.mk' (r.idToSymbol pair.2))
  let r := r.setNext headKey (some ruleFirst)
  let r := r.setPrev ruleFirst (some headKey)
  let r := r.setNext ruleFirst (some ruleSecond)
  let r := r.setPrev ruleSecond (some ruleFirst)
  let r := r.setNext ruleSecond (some tailKey)
  let r := r.setPrev tailKey (some ruleSecond)
  ({ r with ruleIndex := (ruleId, headKey) :: r.ruleIndex.filter (fun p => p.1 ≠ ruleId) },
   ruleId)

/-- `Repair::decrease_pair_frequency` (src/repair.rs): saturating
decrement. -/
def decreasePairFrequency (pairRecords : List (PairKey × PairRecord)) (pair : PairKey) :
    List (PairKey × PairRecord) :=
  match recordsFind pairRecords pair with
  | some rec => recordsSet pairRecords pair { rec with frequency := rec.frequency - 1 }
  | none => pairRecords

/-- `Repair::increase_pair_frequency` (src/repair.rs): thread the occurrence
in O(1) via the record's tail pointer; returns the new frequency. -/
def increasePairFrequency (pairRecords : List (PairKey × PairRecord)) (pairThreads : Threads)
    (pair : PairKey) (position : Key) :
    List (PairKey × PairRecord) × Threads × Nat :=
  let rec0 := (recordsFind pairRecords pair).getD ⟨0, none, none⟩
  let (thread, rec1, pairThreads) :=
    match rec0.lastOccurrence with
    | some last =>
      let pairThreads := match mapFind pairThreads last with
        | some t => threadsSet pairThreads last { t with nextSamePair := some position }
        | none => pairThreads
      (({ PairThread.default with prevSamePair := some last }), rec0, pairThreads)
    | none => (PairThread.default, { rec0 with firstOccurrence := some position }, pairThreads)
  let rec2 := { rec1 with lastOccurrence := some position, frequency := rec1.frequency + 1 }
  (recordsSet pairRecords pair rec2, threadsSet pairThreads position thread, rec2.frequency)

/-- The occurrence-thread loop of `Repair::replace_all_occurrences`
(src/repair.rs), carrying the replacement counter. -/
def Repair.replaceLoop : Nat → Repair → PairKey → Nat → Option Key →
    List (PairKey × PairRecord) → Threads → PriorityQueue → Nat →
    Repair × List (PairKey × PairRecord) × Threads × PriorityQueue × Nat
  | 0, r, _, _, _, records, threads, pq, count => (r, records, threads, pq, count)
  | _, r, _, _, none, records, threads, pq, count => (r, records, threads, pq, count)
  | fuel + 1, r, pair, ruleId, some firstKey, records, threads, pq, count =>
    let nextOcc := (mapFind threads firstKey).bind (·.nextSamePair)
    if ¬ r.contains firstKey then
      Repair.replaceLoop fuel r pair ruleId nextOcc records threads pq count
    else
      match (r.node firstKey).next with
      | none => Repair.replaceLoop fuel r pair ruleId nextOcc records threads pq count
      | some secondKey =>
        if ¬ r.contains secondKey then
          Repair.replaceLoop fuel r pair ruleId nextOcc records threads pq count
        else if r.getSymbolId firstKey ≠ some pair.1
            ∨ r.getSymbolId secondKey ≠ some pair.2 then
          Repair.replaceLoop fuel r pair ruleId nextOcc records threads pq count
        else
          let beforeKey := (r.node firstKey).prev
          let afterKey := (r.node secondKey).next
          let records := match beforeKey with
            | some before =>
              if ¬ r.isSentinel before then
                match r.getSymbolId before, r.getSymbolId firstKey with
                | some bid, some fid => decreasePairFrequency records (bid, fid)
                | _, _ => records
              else records
            | none => records
          let records := match afterKey with
            | some after =>
              if ¬ r.isSentinel after then
                match r.getSymbolId secondKey, r.getSymbolId after with
                | some sid, some aid => decreasePairFrequency records (sid, aid)
                | _, _ => records
              else records
            | none => records
          let (r, ruleRefKey) := r.insertNode (.mk' (.ruleRef ruleId))
          let r := r.setPrev ruleRefKey beforeKey
          let r := r.setNext ruleRefKey afterKey
          let r := match beforeKey with
            | some p => r.setNext p (some ruleRefKey)
            | none => r
          let r := match afterKey with
            | some n => r.setPrev n (some ruleRefKey)
            | none => r
          let r := r.removeNode firstKey
          let r := r.removeNode secondKey
          let threads := threadsErase threads firstKey
          let newId := PairSymbolId.ruleRefId ruleId
          let (records, threads, pq) := match beforeKey with
            | some before =>
              if ¬ r.isSentinel before then
                match r.getSymbolId before with
                | some bid =>
                  let newPair := (bid, newId)
                  let (records, threads, freq) :=
                    increasePairFrequency records threads newPair before
                  (records, threads, if freq = 2 then pq.insert newPair freq else pq)
                | none => (records, threads, pq)
              else (records, threads, pq)
            | none => (records, threads, pq)
          let (records, threads, pq) := match afterKey with
            | some after =>
              if ¬ r.isSentinel after then
                match r.getSymbolId after with
                | some aid =>
                  let newPair := (newId, aid)
                  let (records, threads, freq) :=
                    increasePairFrequency records threads newPair ruleRefKey
                  (records, threads, if freq = 2 then pq.insert newPair freq else pq)
                | none => (records, threads, pq)
              else (records, threads, pq)
            | none => (records, threads, pq)
          Repair.replaceLoop fuel r pair ruleId nextOcc records threads pq (count + 1)

/-- `Repair::replace_all_occurrences` (src/repair.rs): run the thread loop,
then store the replacement count in the new rule's head and drop the
record. -/
def Repair.replaceAllOccurrences (fuel : Nat) (r : Repair) (pair : PairKey) (ruleId : Nat)
    (firstOccurrence : Key) (records : List (PairKey × PairRecord)) (threads : Threads)
    (pq : PriorityQueue) :
    Repair × List (PairKey × PairRecord) × Threads × PriorityQueue :=
  let (r, records, threads, pq, count) :=
    Repair.replaceLoop fuel r pair ruleId (some firstOccurrence) records threads pq 0
  let r := match r.ruleLookup ruleId with
    | some headKey =>
      match (r.node headKey).symbol with
      | .ruleHead rid _ tail => r.setNode headKey { r.node headKey with symbol := .ruleHead rid count tail }
      | _ => r
    | none => r
  (r, recordsErase records pair, threads, pq)

/-- The main compression loop of `Repair::compress` (src/repair.rs),
fuel-bounded; the `compressed` flag is set when the loop finishes (always set
in the source, which terminates). -/
def Repair.compressLoop : Nat → Repair → List (PairKey × PairRecord) → Threads →
    PriorityQueue → Repair
  | 0, r, _, _, _ => { r with compressed := true }
  | fuel + 1, r, records, threads, pq =>
    match pq.popMax with
    | none => { r with compressed := true }
    | some (pq, pair) =>
      match recordsFind records pair with
      | none => Repair.compressLoop fuel r records threads pq
      | some rec =>
        if rec.frequency < 2 then Repair.compressLoop fuel r records threads pq
        else
          match rec.firstOccurrence with
          | none => Repair.compressLoop fuel r records threads pq
          | some firstOccurrence =>
            let (r, ruleId) := r.createRuleForPair pair
            let (r, records, threads, pq) :=
              r.replaceAllOccurrences (fuel + 1) pair ruleId firstOccurrence records threads pq
            Repair.compressLoop fuel r records threads pq

/-- `Repair::compress` (src/repair.rs). -/
def Repair.compress (fuel : Nat) (r : Repair) : Repair :=
  if r.compressed ∨ r.length < 2 then { r with compressed := true }
  else
    let (pairRecords, pairThreads) := r.initializePairStructures
    let maxFreq := (pairRecords.map (fun p => p.2.frequency)).foldl max 0
    let pq := PriorityQueue.new maxFreq
    let pq := pairRecords.foldl
      (fun pq p => if p.2.frequency ≥ 2 then pq.insert p.1 p.2.frequency else pq) pq
    Repair.compressLoop fuel r pairRecords pairThreads pq

/-- `Repair::is_compressed`. -/
def Repair.isCompressed (r : Repair) : Bool := r.compressed

/-- `RepairStats` (src/repair.rs). -/
structure RepairStats where
  inputLength : Nat
  grammarSymbols : Nat
  numRules : Nat
  compressed : Bool
deriving Repr, DecidableEq

/-- One rule's contribution to `Repair::stats` (same walk as
`Sequitur::stats`). -/
def Repair.bodyCount : Nat → Repair → Option Key → Nat
  | 0, _, _ => 0
  | _, _, none => 0
  | fuel + 1, r, some key =>
    match (r.node key).next with
    | some nx => 1 + Repair.bodyCount fuel r (some nx)
    | none => 0

/-- `Repair::stats` (src/repair.rs). -/
def Repair.stats (r : Repair) : RepairStats :=
  let total := (r.ruleIndex.map
    (fun p => Repair.bodyCount (r.fresh + 1) r (r.node p.2).next)).sum
  ⟨r.length, total, r.ruleIndex.length, r.compressed⟩

/-- `RepairIter::resolve_forward` (src/repair_iter.rs): identical logic to
`SequiturIter::resolve_forward`, over the `Repair` arena. -/
def Repair.resolveForward : Nat → Repair → Key → List Key → Option (Key × List Key)
  | 0, _, _, _ => none
  | fuel + 1, r, key, stack =>
    match (r.node key).symbol with
    | .value _ => some (key, stack)
    | .ruleRef ruleId =>
      let stack := key :: stack
      match r.ruleLookup ruleId with
      | none => none
      | some ruleHead =>
        match (r.node ruleHead).next with
        | none => none
        | some ruleFirst => Repair.resolveForward fuel r ruleFirst stack
    | .ruleHead _ _ _ =>
      match (r.node key).next with
      | none => none
      | some nx => Repair.resolveForward fuel r nx stack
    | .ruleTail =>
      match stack with
      | parent :: stack =>
        match (r.node parent).next with
        | none => none
        | some nx => Repair.resolveForward fuel r nx stack
      | [] => none

/-- Driving `RepairIter::next` to exhaustion. -/
def Repair.iterLoop : Nat → Repair → Option (Key × List Key) → List Nat
  | 0, _, _ => []
  | _, _, none => []
  | fuel + 1, r, some (cur, stack) =>
    match (r.node cur).symbol with
    | .value v =>
      match (r.node cur).next with
      | none => []
      | some nextKey =>
        v :: Repair.iterLoop fuel r (Repair.resolveForward (fuel + 1) r nextKey stack)
    | _ => []

/-- `Repair::iter` collected to a list (src/repair_iter.rs). -/
def Repair.iterToList (fuel : Nat) (r : Repair) : List Nat :=
  match r.ruleLookup 0 with
  | none => []
  | some rule0Head =>
    match (r.node rule0Head).next with
    | none => []
    | some start =>
      Repair.iterLoop fuel r (Repair.resolveForward fuel r start [])

/-!
## Claim C9: the id-allocator contract
-/

/-- C9: `IdGenerator::get` returns the most recently freed id when the freed
stack is non-empty (LIFO reuse) and otherwise returns `next`,
post-incrementing it; `IdGenerator::free id` fails (assertion) exactly when
`id ≥ next`, and otherwise pushes `id` onto the freed stack — so that a `get`
right after a successful `free id` hands `id` back. -/
theorem idGenerator_get_free_contract (g : IdGenerator) (id i : Nat) (rest : List Nat) :
    (g.freed = i :: rest → g.get = (i, ⟨g.next, rest⟩))
    ∧ (g.freed = [] → g.get = (g.next, ⟨g.next + 1, []⟩))
    ∧ (id < g.next → g.free id = some ⟨g.next, id :: g.freed⟩)
    ∧ (g.next ≤ id → g.free id = none)
    ∧ (∀ g', g.free id = some g' → g'.get = (id, ⟨g.next, g.freed⟩)) := by
  obtain ⟨n, freed⟩ := g
  refine ⟨?_, ?_, ?_, ?_, ?_⟩
  · rintro rfl; rfl
  · rintro rfl; rfl
  · intro h; simp [IdGenerator.free, h]
  · intro h; simp [IdGenerator.free, Nat.not_lt.mpr h]
  · intro g' h
    simp only [IdGenerator.free] at h
    split at h
    · cases h; rfl
    · cases h

/-!
## Claim C8: the RePair one-shot contract
-/

/-- `Repair::push` leaves the `compressed` flag unchanged and succeeds on an
uncompressed engine. -/
theorem Repair.push_of_not_compressed (r : Repair) (v : Nat)
    (h : r.compressed = false) :
    ∃ r', r.push v = some r' ∧ r'.compressed = false := by
  unfold Repair.push
  rw [h]
  simp only [Bool.false_eq_true, if_false]
  rcases hA : r.getOrCreateValueIndex v with ⟨r1, i1⟩
  have hc1 : r1.compressed = false := by
    have h2 : (r.getOrCreateValueIndex v).1.compressed = r.compressed := by
      unfold Repair.getOrCreateValueIndex
      cases mapFind r.valueToIndex v <;> rfl
    rw [hA] at h2
    simpa [h] using h2
  refine ⟨_, rfl, ?_⟩
  simp only [Repair.setNext, Repair.setPrev, Repair.setNode, Repair.insertNode]
  split <;> exact hc1

/-- `Repair::push` aborts on a compressed engine. -/
theorem Repair.push_of_compressed (r : Repair) (v : Nat)
    (h : r.compressed = true) : r.push v = none := by
  simp [Repair.push, h]

/-- The main loop of `Repair::compress` always returns with the `compressed`
flag set. -/
theorem Repair.compressLoop_compressed (fuel : Nat) :
    ∀ (r : Repair) records threads pq,
      (Repair.compressLoop fuel r records threads pq).compressed = true := by
  induction fuel with
  | zero => intro r records threads pq; rfl
  | succ n ih =>
    intro r records threads pq
    simp only [Repair.compressLoop]
    split
    · rfl
    · split
      · exact ih ..
      · split
        · exact ih ..
        · split
          · exact ih ..
          · exact ih ..

/-- `Repair::compress` always returns with the `compressed` flag set. -/
theorem Repair.compress_compressed (fuel : Nat) (r : Repair) :
    (r.compress fuel).compressed = true := by
  simp only [Repair.compress]
  split
  · rfl
  · exact Repair.compressLoop_compressed ..

/-- `Repair::extend` from a fresh engine performs every push successfully and
leaves the engine uncompressed. -/
theorem Repair.extend_not_compressed (values : List Nat) :
    ∀ (r : Repair), r.compressed = false →
      ∃ r', Repair.extend r values = some r' ∧ r'.compressed = false := by
  induction values with
  | nil => intro r h; exact ⟨r, rfl, h⟩
  | cons v rest ih =>
    intro r h
    obtain ⟨r1, hpush, hc1⟩ := Repair.push_of_not_compressed r v h
    obtain ⟨r', hrest, hc'⟩ := ih r1 hc1
    refine ⟨r', ?_, hc'⟩
    simpa [Repair.extend, List.foldlM, hpush] using hrest

/-- C8: RePair one-shot contract.  Any sequence of pushes into a fresh
engine succeeds (and one more push still succeeds), but once `compress()` has
run, every subsequent push aborts (`assert!(!self.compressed)`, modelled as
`none`). -/
theorem repair_compress_one_shot (values : List Nat) (fuel : Nat) (v w : Nat) :
    (∃ r, Repair.extend Repair.new values = some r ∧ (r.push w).isSome = true)
    ∧ (∀ r, Repair.extend Repair.new values = some r →
        (r.compress fuel).push v = none) := by
  constructor
  · obtain ⟨r, hext, hc⟩ := Repair.extend_not_compressed values Repair.new rfl
    obtain ⟨r', hpush, _⟩ := Repair.push_of_not_compressed r w hc
    exact ⟨r, hext, by simp [hpush]⟩
  · intro r _
    exact Repair.push_of_compressed _ v (Repair.compress_compressed fuel r)

/-!
## Claim C5: the digram lookup never reports overlapping or colliding matches
-/

/-- Helper for C5: everything the standard digram lookup guarantees when it
reports a match. -/
theorem Grammar.findAndAddDigram_match_spec (g : Grammar) (first second otherFirst : Key)
    (h : (g.findAndAddDigram first second).2 = some otherFirst) :
    otherFirst ≠ first ∧ otherFirst ≠ second
    ∧ mapFind g.digramIndex ((g.node first).symbol.hashOf, (g.node second).symbol.hashOf)
        = some otherFirst
    ∧ g.contains otherFirst = true
    ∧ ∃ otherSecond, (g.node otherFirst).next = some otherSecond ∧ otherSecond ≠ first
        ∧ (g.node first).symbol.equals (g.node otherFirst).symbol = true
        ∧ (g.node second).symbol.equals (g.node otherSecond).symbol = true := by
  unfold Grammar.findAndAddDigram at h
  split at h
  · exact absurd h (by simp)
  · dsimp only at h
    split at h
    · exact absurd h (by simp)
    · rename_i hfound
      split at h
      · exact absurd h (by simp)
      · split at h
        · exact absurd h (by simp)
        · rename_i hne hcont
          split at h
          · exact absurd h (by simp)
          · rename_i otherSecond hnext
            split at h
            · exact absurd h (by simp)
            · split at h
              · rename_i hov heq
                cases h
                push_neg at hov
                refine ⟨fun hc => hne (hc ▸ rfl), hov.2, hfound, ?_, otherSecond, hnext,
                  hov.1, heq.1, heq.2⟩
                simp only [Grammar.contains, not_not] at hcont ⊢
                simpa [Option.isSome_iff_ne_none] using hcont
              · exact absurd h (by simp)

/-- Helper for C5: the RLE digram lookup gives the same guarantees. -/
theorem RleGrammar.findAndAddDigram_match_spec_rle (g : RleGrammar) (first second otherFirst : Key)
    (h : (g.findAndAddDigram first second).2 = some otherFirst) :
    otherFirst ≠ first ∧ otherFirst ≠ second
    ∧ mapFind g.digramIndex ((g.node first).symbol.hashOf, (g.node second).symbol.hashOf)
        = some otherFirst
    ∧ g.contains otherFirst = true
    ∧ ∃ otherSecond, (g.node otherFirst).next = some otherSecond ∧ otherSecond ≠ first
        ∧ (g.node first).symbol.equals (g.node otherFirst).symbol = true
        ∧ (g.node second).symbol.equals (g.node otherSecond).symbol = true := by
  unfold RleGrammar.findAndAddDigram at h
  split at h
  · exact absurd h (by simp)
  · dsimp only at h
    split at h
    · exact absurd h (by simp)
    · rename_i hfound
      split at h
      · exact absurd h (by simp)
      · split at h
        · exact absurd h (by simp)
        · rename_i hne hcont
          split at h
          · exact absurd h (by simp)
          · rename_i otherSecond hnext
            split at h
            · exact absurd h (by simp)
            · split at h
              · rename_i hov heq
                cases h
                push_neg at hov
                refine ⟨fun hc => hne (hc ▸ rfl), hov.2, hfound, ?_, otherSecond, hnext,
                  hov.1, heq.1, heq.2⟩
                simp only [RleGrammar.contains, not_not] at hcont ⊢
                simpa [Option.isSome_iff_ne_none] using hcont
              · exact absurd h (by simp)

/-- C5: when the digram lookup (`find_and_add_digram`, standard or RLE)
reports a match, the match is the stored occurrence, it is live, it is
neither the queried position itself nor sharing a symbol with it (the stored
second is not our first, the stored first is not our second), and the full
payload-equality check of both symbols passed; moreover in input `aaa` the
overlapping pair `(a,a)` forms no rule (the engine keeps only Rule 0). -/
theorem digram_lookup_no_overlap_no_collision (g : Grammar) (first second otherFirst : Key)
    (h : (g.findAndAddDigram first second).2 = some otherFirst) :
    (otherFirst ≠ first ∧ otherFirst ≠ second
      ∧ mapFind g.digramIndex ((g.node first).symbol.hashOf, (g.node second).symbol.hashOf)
          = some otherFirst
      ∧ g.contains otherFirst = true
      ∧ ∃ otherSecond, (g.node otherFirst).next = some otherSecond ∧ otherSecond ≠ first
          ∧ (g.node first).symbol.equals (g.node otherFirst).symbol = true
          ∧ (g.node second).symbol.equals (g.node otherSecond).symbol = true)
    ∧ (∀ (rg : RleGrammar) (f2 s2 o2 : Key), (rg.findAndAddDigram f2 s2).2 = some o2 →
        o2 ≠ f2 ∧ o2 ≠ s2
        ∧ mapFind rg.digramIndex ((rg.node f2).symbol.hashOf, (rg.node s2).symbol.hashOf)
            = some o2
        ∧ rg.contains o2 = true
        ∧ ∃ os2, (rg.node o2).next = some os2 ∧ os2 ≠ f2
            ∧ (rg.node f2).symbol.equals (rg.node o2).symbol = true
            ∧ (rg.node s2).symbol.equals (rg.node os2).symbol = true)
    ∧ (∀ fuel, (Sequitur.ofList fuel [1, 1, 1]).numRules = 1) := by
  refine ⟨Grammar.findAndAddDigram_match_spec g first second otherFirst h,
    fun rg f2 s2 o2 h2 => RleGrammar.findAndAddDigram_match_spec_rle rg f2 s2 o2 h2,
    fun fuel => ?_⟩
  cases fuel <;> rfl

/-- A four-node grammar holding the digram `(1,2)` twice, with the index
entry pointing at the first occurrence: the witness state for C5. -/
def digramWitnessG : Grammar :=
  ⟨[(2, some ⟨.value 1, none, some 3⟩), (3, some ⟨.value 2, some 2, none⟩),
    (4, some ⟨.value 1, none, some 5⟩), (5, some ⟨.value 2, some 4, none⟩)],
   6, [((.value 1, .value 2), some 2)], [], IdGenerator.new⟩

/-- Witness for C5 at the concrete state `digramWitnessG`: looking up the
digram at positions (4,5) matches the stored occurrence 2, and every guard of
the theorem holds there. -/
theorem digram_lookup_no_overlap_no_collision_witness :
    (2 : Key) ≠ 4 ∧ (2 : Key) ≠ 5
    ∧ mapFind digramWitnessG.digramIndex
        ((digramWitnessG.node 4).symbol.hashOf, (digramWitnessG.node 5).symbol.hashOf)
        = some 2
    ∧ digramWitnessG.contains 2 = true
    ∧ ∃ otherSecond, (digramWitnessG.node 2).next = some otherSecond ∧ otherSecond ≠ 4
        ∧ (digramWitnessG.node 4).symbol.equals (digramWitnessG.node 2).symbol = true
        ∧ (digramWitnessG.node 5).symbol.equals (digramWitnessG.node otherSecond).symbol
            = true :=
  (digram_lookup_no_overlap_no_collision digramWitnessG 4 5 2 (by decide)).1

theorem mapFind_cons_eq {α β : Type} [DecidableEq α] (m : List (α × Option β)) (k : α)
    (v : Option β) : mapFind ((k, v) :: m) k = v := by
  simp [mapFind]

theorem mapFind_cons_ne {α β : Type} [DecidableEq α] (m : List (α × Option β)) (k j : α)
    (v : Option β) (h : k ≠ j) : mapFind ((k, v) :: m) j = mapFind m j := by
  simp [mapFind, h]

/-- The shape of an RLE engine that holds one single-value run: Rule 0's body
is one `Value x` node with run `n`. -/
def runOnlyState (s : SequiturRle) (x n : Nat) : Prop :=
  mapFind s.grammar.symbols 0 = some ⟨.ruleTail, 1, some 2, none⟩
  ∧ mapFind s.grammar.symbols 1 = some ⟨.ruleHead 0 0 0, 1, none, some 2⟩
  ∧ mapFind s.grammar.symbols 2 = some ⟨.value x, n, some 1, some 0⟩
  ∧ s.grammar.fresh = 3
  ∧ s.grammar.ruleIndex = [(0, 1)]
  ∧ s.sequenceEnd = 0
  ∧ s.length = n

/-- The absorption step of `SequiturRle::push` on any state whose node before
the end sentinel carries the pushed value. -/
theorem SequiturRle.push_absorb (s : SequiturRle) (x prev fuel : Nat)
    (hprev : (s.grammar.node s.sequenceEnd).prev = some prev)
    (hval : (s.grammar.node prev).symbol = .value x) :
    s.push fuel x
      = ⟨s.grammar.setRun prev ((s.grammar.node prev).run + 1), s.sequenceEnd,
         s.length + 1⟩ := by
  unfold SequiturRle.push
  dsimp only
  rw [hprev]
  dsimp only
  rw [hval]
  simp

/-- One absorbing push preserves the single-run shape. -/
theorem runOnlyState_push (s : SequiturRle) (x n fuel : Nat) (h : runOnlyState s x n) :
    runOnlyState (s.push fuel x) x (n + 1) := by
  obtain ⟨h0, h1, h2, hf, hri, hse, hl⟩ := h
  have hnode2 : s.grammar.node 2 = ⟨.value x, n, some 1, some 0⟩ := by
    simp [RleGrammar.node, h2]
  have hstep : s.push fuel x
      = ⟨s.grammar.setRun 2 ((s.grammar.node 2).run + 1), s.sequenceEnd, s.length + 1⟩ := by
    refine SequiturRle.push_absorb s x 2 fuel ?_ ?_
    · rw [hse]; simp [RleGrammar.node, h0]
    · rw [hnode2]
  rw [hstep, hnode2]
  refine ⟨?_, ?_, ?_, ?_, ?_, ?_, ?_⟩ <;>
    simp [RleGrammar.setRun, RleGrammar.setNode, hnode2, mapFind_cons_eq, mapFind_cons_ne,
      h0, h1, h2, hf, hri, hse, hl]

/-- Pushing the same value `n ≥ 1` times from a fresh engine yields the
single-run shape. -/
theorem runOnlyState_ofList (x fuel : Nat) :
    ∀ n, 1 ≤ n → runOnlyState (SequiturRle.ofList fuel (List.replicate n x)) x n := by
  intro n hn
  induction n with
  | zero => omega
  | succ m ih =>
    rcases Nat.eq_or_lt_of_le hn with h1 | h2
    · -- m = 0: the single first push
      have hm : m = 0 := by omega
      subst hm
      refine ⟨rfl, rfl, rfl, rfl, rfl, rfl, rfl⟩
    · have hm : 1 ≤ m := by omega
      have hsplit : List.replicate (m + 1) x = List.replicate m x ++ [x] :=
        List.replicate_succ' m x
      have : SequiturRle.ofList fuel (List.replicate (m + 1) x)
          = (SequiturRle.ofList fuel (List.replicate m x)).push fuel x := by
        rw [hsplit]
        simp [SequiturRle.ofList, SequiturRle.extend, List.foldl_append]
      rw [this]
      exact runOnlyState_push _ x m fuel (ih hm)


/-- One-step unfolding of `resolveToValue` at positive fuel (the equation
compiler does not generate this equation for the nested match). -/
theorem RleGrammar.resolveToValue_succ (fuel : Nat) (g : RleGrammar) (key : Key)
    (stack : List RleStackEntry) :
    RleGrammar.resolveToValue (fuel + 1) g key stack =
      (match (g.node key).symbol with
      | .value _ => some (key, (g.node key).run, stack)
      | .ruleRef ruleId =>
        let run := (g.node key).run
        let stack := ⟨key, run⟩ :: stack
        match g.ruleLookup ruleId with
        | none => none
        | some ruleHead =>
          match (g.node ruleHead).next with
          | none => none
          | some ruleFirst => RleGrammar.resolveToValue fuel g ruleFirst stack
      | .ruleHead _ _ _ =>
        match (g.node key).next with
        | none => none
        | some nx => RleGrammar.resolveToValue fuel g nx stack
      | .ruleTail =>
        match stack with
        | [] => none
        | entry :: rest =>
          let newRemaining := entry.remainingRun - 1
          if newRemaining > 0 then
            match (g.node entry.key).symbol with
            | .ruleRef ruleId =>
              match g.ruleLookup ruleId with
              | none => none
              | some ruleHead =>
                match (g.node ruleHead).next with
                | none => none
                | some ruleFirst =>
                  RleGrammar.resolveToValue fuel g ruleFirst (⟨entry.key, newRemaining⟩ :: rest)
            | _ =>
              match (g.node entry.key).next with
              | none => none
              | some nx =>
                RleGrammar.resolveToValue fuel g nx (⟨entry.key, newRemaining⟩ :: rest)
          else
            match (g.node entry.key).next with
            | none => none
            | some nx => RleGrammar.resolveToValue fuel g nx rest) := rfl

/-- `stats` of the single-run shape: one grammar node carrying the whole
run. -/
theorem runOnlyState_stats (s : SequiturRle) (x n : Nat) (h : runOnlyState s x n) :
    s.stats = ⟨n, 1, n, 1⟩ := by
  obtain ⟨h0, h1, h2, hf, hri, hse, hl⟩ := h
  unfold SequiturRle.stats
  rw [hri, hf, hl]
  simp [RleGrammar.node, h0, h1, h2, RleGrammar.bodyCountRuns]

/-- Driving the RLE iterator over a single `Value x` node with remaining run
`m` emits `m` copies of `x`. -/
theorem rleIterLoop_run (g : RleGrammar) (x : Nat)
    (hsym : (g.node 2).symbol = .value x)
    (hnext : (g.node 2).next = some 0)
    (h0sym : (g.node 0).symbol = .ruleTail) :
    ∀ m fuel, 1 ≤ m → m + 1 ≤ fuel →
      RleGrammar.rleIterLoop fuel g (some (2, m, [])) = List.replicate m x := by
  intro m
  induction m with
  | zero => intro fuel h1 _; omega
  | succ k ih =>
    intro fuel h1 h2f
    obtain ⟨f, rfl⟩ : ∃ f, fuel = f + 1 := ⟨fuel - 1, by omega⟩
    unfold RleGrammar.rleIterLoop
    rw [hsym]
    dsimp only
    by_cases hk : 1 ≤ k
    · rw [if_pos (by omega : k + 1 > 1)]
      have hs : k + 1 - 1 = k := by omega
      rw [hs, ih f hk (by omega)]
      simp [List.replicate_succ]
    · have hk0 : k = 0 := by omega
      subst hk0
      rw [if_neg (by omega : ¬ (0 + 1 > 1)), hnext]
      dsimp only
      have hres : RleGrammar.resolveToValue (f + 1) g 0 [] = none := by
        rw [RleGrammar.resolveToValue_succ]
        rw [h0sym]
      rw [hres]
      cases f <;> simp [RleGrammar.rleIterLoop]

/-- `iter` of the single-run shape emits the run. -/
theorem runOnlyState_iter (s : SequiturRle) (x n : Nat) (hn : 1 ≤ n)
    (h : runOnlyState s x n) :
    s.iterToList (n + 1) = List.replicate n x := by
  obtain ⟨h0, h1, h2, hf, hri, hse, hl⟩ := h
  unfold SequiturRle.iterToList
  have hrl : s.grammar.ruleLookup 0 = some 1 := by
    simp [RleGrammar.ruleLookup, hri]
  rw [hrl]
  dsimp only
  have hn1 : (s.grammar.node 1).next = some 2 := by simp [RleGrammar.node, h1]
  rw [hn1]
  dsimp only
  have hres : RleGrammar.resolveToValue (n + 1) s.grammar 2 [] = some (2, n, []) := by
    rw [RleGrammar.resolveToValue_succ]
    simp [RleGrammar.node, h2]
  rw [hres]
  exact rleIterLoop_run s.grammar x (by simp [RleGrammar.node, h2])
    (by simp [RleGrammar.node, h2]) (by simp [RleGrammar.node, h0]) n (n + 1) hn (le_refl _)

/-- C6: RLE push run absorption.  When the node immediately before the end
sentinel carries `Value x`, `push x` only increments that node's run and the
length — the result does not depend on the cascade fuel, i.e. `link_made` is
not invoked.  Consequently pushing `x` `n ≥ 1` times from a fresh engine
yields `stats().grammar_nodes = 1`, `len() = n`, and iteration emits the `n`
copies of `x`. -/
theorem rle_push_run_absorption (s : SequiturRle) (x prev fuel fuel2 n : Nat)
    (hprev : (s.grammar.node s.sequenceEnd).prev = some prev)
    (hval : (s.grammar.node prev).symbol = .value x)
    (hn : 1 ≤ n) :
    (s.push fuel x
        = ⟨s.grammar.setRun prev ((s.grammar.node prev).run + 1), s.sequenceEnd,
           s.length + 1⟩
      ∧ s.push fuel x = s.push fuel2 x)
    ∧ (SequiturRle.ofList fuel (List.replicate n x)).stats.grammarNodes = 1
    ∧ (SequiturRle.ofList fuel (List.replicate n x)).stats.inputLength = n
    ∧ (SequiturRle.ofList fuel (List.replicate n x)).iterToList (n + 1)
        = List.replicate n x := by
  have habs := SequiturRle.push_absorb s x prev fuel hprev hval
  have habs2 := SequiturRle.push_absorb s x prev fuel2 hprev hval
  have hrun := runOnlyState_ofList x fuel n hn
  refine ⟨⟨habs, habs.trans habs2.symm⟩, ?_, ?_, runOnlyState_iter _ x n hn hrun⟩
  · rw [runOnlyState_stats _ x n hrun]
  · rw [runOnlyState_stats _ x n hrun]

/-- The single-run witness state: a fresh RLE engine that has absorbed one
push of the value 9. -/
def runWitnessS : SequiturRle :=
  ⟨⟨[(0, some ⟨.ruleTail, 1, some 2, none⟩), (1, some ⟨.ruleHead 0 0 0, 1, none, some 2⟩),
     (2, some ⟨.value 9, 1, some 1, some 0⟩)], 3, [], [(0, 1)], IdGenerator.new⟩, 0, 1⟩

/-- Witness for C6 at the concrete state `runWitnessS` (value 9, run 1) with
`n = 2`. -/
theorem rle_push_run_absorption_witness :
    (runWitnessS.push 5 9
        = ⟨runWitnessS.grammar.setRun 2 ((runWitnessS.grammar.node 2).run + 1),
           runWitnessS.sequenceEnd, runWitnessS.length + 1⟩
      ∧ runWitnessS.push 5 9 = runWitnessS.push 7 9)
    ∧ (SequiturRle.ofList 5 (List.replicate 2 9)).stats.grammarNodes = 1
    ∧ (SequiturRle.ofList 5 (List.replicate 2 9)).stats.inputLength = 2
    ∧ (SequiturRle.ofList 5 (List.replicate 2 9)).iterToList (2 + 1)
        = List.replicate 2 9 :=
  rle_push_run_absorption runWitnessS 9 2 5 7 2 (by decide) (by decide) (by decide)

/-!
## Claim C7: the count stored by `replace_all_occurrences` (src/repair.rs)
-/

/-- The symbol stored at a key of a RePair arena, as a partial projection
(`self.symbols.get(k).map(|n| n.symbol)`). -/
def Repair.symAt (r : Repair) (k : Key) : Option Symbol :=
  (mapFind r.symbols k).map SymbolNode.symbol

/-- The reference count of a rule: the number of live arena nodes holding
`Symbol::RuleRef { rule_id }`. -/
def Repair.refCount (r : Repair) (ruleId : Nat) : Nat :=
  ((Finset.range r.fresh).filter (fun k => r.symAt k = some (.ruleRef ruleId))).card

/-- Arena invariant of reachable `Repair` states: live keys lie below the
fresh-key counter (the slotmap only hands out fresh keys). -/
def Repair.Bounded (r : Repair) : Prop :=
  ∀ k, (mapFind r.symbols k).isSome = true → k < r.fresh

/-- Arena invariant of reachable `Repair` states: the `prev`/`next` links of
live nodes point below the fresh-key counter. -/
def Repair.Closed (r : Repair) : Prop :=
  ∀ k n, mapFind r.symbols k = some n →
    (∀ j, n.prev = some j → j < r.fresh) ∧ (∀ j, n.next = some j → j < r.fresh)

theorem Repair.symAt_setNode (r : Repair) (k : Key) (n : SymbolNode) (j : Key) :
    (r.setNode k n).symAt j = if k = j then some n.symbol else r.symAt j := by
  unfold Repair.symAt Repair.setNode
  by_cases h : k = j
  · subst h
    rw [if_pos rfl]
    rw [mapFind_cons_eq]
    rfl
  · rw [if_neg h]
    rw [mapFind_cons_ne _ _ _ _ h]

theorem Repair.symAt_setNext (r : Repair) (k : Key) (v : Option Key) (j : Key) :
    (r.setNext k v).symAt j = if k = j then some (r.node k).symbol else r.symAt j := by
  unfold Repair.setNext
  rw [Repair.symAt_setNode]

theorem Repair.symAt_setPrev (r : Repair) (k : Key) (v : Option Key) (j : Key) :
    (r.setPrev k v).symAt j = if k = j then some (r.node k).symbol else r.symAt j := by
  unfold Repair.setPrev
  rw [Repair.symAt_setNode]

theorem Repair.symAt_removeNode (r : Repair) (k : Key) (j : Key) :
    (r.removeNode k).symAt j = if k = j then none else r.symAt j := by
  unfold Repair.symAt Repair.removeNode
  by_cases h : k = j
  · subst h
    rw [if_pos rfl, mapFind_cons_eq]
    rfl
  · rw [if_neg h, mapFind_cons_ne _ _ _ _ h]

theorem Repair.symAt_insertNode (r : Repair) (n : SymbolNode) (j : Key) :
    ((r.insertNode n).1).symAt j = if r.fresh = j then some n.symbol else r.symAt j := by
  unfold Repair.symAt Repair.insertNode
  by_cases h : r.fresh = j
  · subst h
    rw [if_pos rfl]
    rw [show mapFind ((r.fresh, some n) :: r.symbols) r.fresh = some n from mapFind_cons_eq _ _ _]
    rfl
  · rw [if_neg h, mapFind_cons_ne _ _ _ _ h]

theorem Repair.symAt_node_cases (r : Repair) (k : Key) :
    r.symAt k = some (r.node k).symbol
      ∨ (r.symAt k = none ∧ (r.node k).symbol = .ruleTail) := by
  unfold Repair.symAt Repair.node
  cases hm : mapFind r.symbols k with
  | none => exact Or.inr ⟨rfl, rfl⟩
  | some n => exact Or.inl rfl

theorem Repair.node_symbol_of_symAt (r : Repair) (k : Key) (s : Symbol)
    (h : r.symAt k = some s) : (r.node k).symbol = s := by
  rcases Repair.symAt_node_cases r k with hnc | ⟨hna, _⟩
  · rw [h] at hnc
    exact (Option.some.inj hnc).symm
  · rw [hna] at h
    exact absurd h (by simp)

theorem Repair.symAt_keep_setNext (r : Repair) (k : Key) (v : Option Key) (j : Key)
    (s : Symbol) (h : r.symAt j = some s) : (r.setNext k v).symAt j = some s := by
  rw [Repair.symAt_setNext]
  by_cases hk : k = j
  · subst hk
    rw [if_pos rfl, Repair.node_symbol_of_symAt r k s h]
  · rw [if_neg hk]
    exact h

theorem Repair.symAt_keep_setPrev (r : Repair) (k : Key) (v : Option Key) (j : Key)
    (s : Symbol) (h : r.symAt j = some s) : (r.setPrev k v).symAt j = some s := by
  rw [Repair.symAt_setPrev]
  by_cases hk : k = j
  · subst hk
    rw [if_pos rfl, Repair.node_symbol_of_symAt r k s h]
  · rw [if_neg hk]
    exact h

theorem Repair.symAt_notRef_setNext (r : Repair) (k : Key) (v : Option Key) (id : Nat)
    (j : Key) (h : r.symAt j ≠ some (.ruleRef id)) :
    (r.setNext k v).symAt j ≠ some (.ruleRef id) := by
  rw [Repair.symAt_setNext]
  by_cases hk : k = j
  · subst hk
    rw [if_pos rfl]
    rcases Repair.symAt_node_cases r k with hnc | ⟨_, hnb⟩
    · intro hc
      exact h (hnc.trans hc)
    · rw [hnb]
      simp
  · rw [if_neg hk]
    exact h

theorem Repair.symAt_notRef_setPrev (r : Repair) (k : Key) (v : Option Key) (id : Nat)
    (j : Key) (h : r.symAt j ≠ some (.ruleRef id)) :
    (r.setPrev k v).symAt j ≠ some (.ruleRef id) := by
  rw [Repair.symAt_setPrev]
  by_cases hk : k = j
  · subst hk
    rw [if_pos rfl]
    rcases Repair.symAt_node_cases r k with hnc | ⟨_, hnb⟩
    · intro hc
      exact h (hnc.trans hc)
    · rw [hnb]
      simp
  · rw [if_neg hk]
    exact h

theorem Repair.symAt_notRef_removeNode (r : Repair) (k : Key) (id : Nat) (j : Key)
    (h : r.symAt j ≠ some (.ruleRef id)) :
    (r.removeNode k).symAt j ≠ some (.ruleRef id) := by
  rw [Repair.symAt_removeNode]
  by_cases hk : k = j
  · rw [if_pos hk]
    simp
  · rw [if_neg hk]
    exact h

theorem Repair.symAt_notRef_insertNode (r : Repair) (n : SymbolNode) (id : Nat) (j : Key)
    (hj : r.fresh ≠ j) (h : r.symAt j ≠ some (.ruleRef id)) :
    ((r.insertNode n).1).symAt j ≠ some (.ruleRef id) := by
  rw [Repair.symAt_insertNode, if_neg hj]
  exact h

theorem Repair.refCount_congr (r r' : Repair) (id : Nat) (hf : r'.fresh = r.fresh)
    (h : ∀ k, k < r.fresh →
      (r'.symAt k = some (.ruleRef id) ↔ r.symAt k = some (.ruleRef id))) :
    r'.refCount id = r.refCount id := by
  unfold Repair.refCount
  rw [hf]
  congr 1
  apply Finset.filter_congr
  intro j hj
  simp only [Finset.mem_range] at hj
  exact h j hj

theorem Repair.refCount_setNext (r : Repair) (k : Key) (v : Option Key) (id : Nat) :
    (r.setNext k v).refCount id = r.refCount id := by
  refine Repair.refCount_congr _ _ _ rfl ?_
  intro j hj
  rw [Repair.symAt_setNext]
  by_cases hk : k = j
  · subst hk
    rw [if_pos rfl]
    rcases Repair.symAt_node_cases r k with hnc | ⟨hna, hnb⟩
    · rw [← hnc]
    · rw [hnb, hna]
      simp
  · rw [if_neg hk]

theorem Repair.refCount_setPrev (r : Repair) (k : Key) (v : Option Key) (id : Nat) :
    (r.setPrev k v).refCount id = r.refCount id := by
  refine Repair.refCount_congr _ _ _ rfl ?_
  intro j hj
  rw [Repair.symAt_setPrev]
  by_cases hk : k = j
  · subst hk
    rw [if_pos rfl]
    rcases Repair.symAt_node_cases r k with hnc | ⟨hna, hnb⟩
    · rw [← hnc]
    · rw [hnb, hna]
      simp
  · rw [if_neg hk]

theorem Repair.refCount_removeNode_notRef (r : Repair) (k : Key) (id : Nat)
    (h : r.symAt k ≠ some (.ruleRef id)) :
    (r.removeNode k).refCount id = r.refCount id := by
  refine Repair.refCount_congr _ _ _ rfl ?_
  intro j hj
  rw [Repair.symAt_removeNode]
  by_cases hk : k = j
  · subst hk
    rw [if_pos rfl]
    constructor
    · intro hc
      exact absurd hc (by simp)
    · intro hc
      exact absurd hc h
  · rw [if_neg hk]

theorem Repair.refCount_setNode_head (r : Repair) (k : Key) (n : SymbolNode) (id : Nat)
    (h1 : r.symAt k ≠ some (.ruleRef id)) (h2 : n.symbol ≠ .ruleRef id) :
    (r.setNode k n).refCount id = r.refCount id := by
  refine Repair.refCount_congr _ _ _ rfl ?_
  intro j hj
  rw [Repair.symAt_setNode]
  by_cases hk : k = j
  · subst hk
    rw [if_pos rfl]
    constructor
    · intro hc
      exact absurd (by simpa using hc) h2
    · intro hc
      exact absurd hc h1
  · rw [if_neg hk]

theorem Repair.refCount_insertNode (r : Repair) (n : SymbolNode) (id : Nat) :
    ((r.insertNode n).1).refCount id
      = r.refCount id + (if n.symbol = .ruleRef id then 1 else 0) := by
  unfold Repair.refCount
  have hfr : ((r.insertNode n).1).fresh = r.fresh + 1 := rfl
  rw [hfr, Finset.range_succ, Finset.filter_insert]
  have hx : ∀ j ∈ Finset.range r.fresh,
      (((r.insertNode n).1).symAt j = some (.ruleRef id))
        ↔ (r.symAt j = some (.ruleRef id)) := by
    intro j hj
    simp only [Finset.mem_range] at hj
    rw [Repair.symAt_insertNode]
    rw [if_neg (Nat.ne_of_gt hj)]
  rw [Finset.filter_congr hx]
  have hfreshAt : ((r.insertNode n).1).symAt r.fresh = some n.symbol := by
    rw [Repair.symAt_insertNode, if_pos rfl]
  by_cases hs : n.symbol = .ruleRef id
  · rw [if_pos (by rw [hfreshAt, hs]), if_pos hs]
    rw [Finset.card_insert_of_not_mem
      (fun hc => by simpa using Finset.mem_of_mem_filter _ hc)]
  · rw [if_neg (by rw [hfreshAt]; simpa using hs), if_neg hs]
    rfl

theorem Repair.bounded_setNode (r : Repair) (k : Key) (n : SymbolNode)
    (hB : r.Bounded) (hk : k < r.fresh) : (r.setNode k n).Bounded := by
  intro j hj
  replace hj : (mapFind ((k, some n) :: r.symbols) j).isSome = true := hj
  show j < r.fresh
  by_cases h : k = j
  · subst h
    exact hk
  · rw [mapFind_cons_ne _ _ _ _ h] at hj
    exact hB j hj

theorem Repair.bounded_setNext (r : Repair) (k : Key) (v : Option Key)
    (hB : r.Bounded) (hk : k < r.fresh) : (r.setNext k v).Bounded :=
  Repair.bounded_setNode r k _ hB hk

theorem Repair.bounded_setPrev (r : Repair) (k : Key) (v : Option Key)
    (hB : r.Bounded) (hk : k < r.fresh) : (r.setPrev k v).Bounded :=
  Repair.bounded_setNode r k _ hB hk

theorem Repair.bounded_removeNode (r : Repair) (k : Key)
    (hB : r.Bounded) : (r.removeNode k).Bounded := by
  intro j hj
  replace hj : (mapFind ((k, (none : Option SymbolNode)) :: r.symbols) j).isSome = true := hj
  show j < r.fresh
  by_cases h : k = j
  · subst h
    rw [mapFind_cons_eq] at hj
    simp at hj
  · rw [mapFind_cons_ne _ _ _ _ h] at hj
    exact hB j hj

theorem Repair.bounded_insertNode (r : Repair) (n : SymbolNode)
    (hB : r.Bounded) : ((r.insertNode n).1).Bounded := by
  intro j hj
  replace hj : (mapFind ((r.fresh, some n) :: r.symbols) j).isSome = true := hj
  show j < r.fresh + 1
  by_cases h : r.fresh = j
  · subst h
    exact Nat.lt_succ_self _
  · rw [mapFind_cons_ne _ _ _ _ h] at hj
    exact Nat.lt_succ_of_lt (hB j hj)

theorem Repair.closed_setNode (r : Repair) (k : Key) (n : SymbolNode)
    (hC : r.Closed)
    (hp : ∀ j, n.prev = some j → j < r.fresh)
    (hn : ∀ j, n.next = some j → j < r.fresh) : (r.setNode k n).Closed := by
  intro a m hm
  replace hm : mapFind ((k, some n) :: r.symbols) a = some m := hm
  show (∀ j, m.prev = some j → j < r.fresh) ∧ (∀ j, m.next = some j → j < r.fresh)
  by_cases h : k = a
  · subst h
    rw [mapFind_cons_eq] at hm
    cases hm
    exact ⟨hp, hn⟩
  · rw [mapFind_cons_ne _ _ _ _ h] at hm
    exact hC a m hm

theorem Repair.node_prev_lt (r : Repair) (k : Key) (hC : r.Closed) :
    ∀ j, (r.node k).prev = some j → j < r.fresh := by
  intro j hj
  unfold Repair.node at hj
  cases hm : mapFind r.symbols k with
  | none => rw [hm] at hj; simp [SymbolNode.dummy] at hj
  | some m =>
    rw [hm] at hj
    exact (hC k m hm).1 j hj

theorem Repair.node_next_lt (r : Repair) (k : Key) (hC : r.Closed) :
    ∀ j, (r.node k).next = some j → j < r.fresh := by
  intro j hj
  unfold Repair.node at hj
  cases hm : mapFind r.symbols k with
  | none => rw [hm] at hj; simp [SymbolNode.dummy] at hj
  | some m =>
    rw [hm] at hj
    exact (hC k m hm).2 j hj

theorem Repair.closed_setNext (r : Repair) (k : Key) (v : Option Key)
    (hC : r.Closed) (hv : ∀ j, v = some j → j < r.fresh) :
    (r.setNext k v).Closed := by
  apply Repair.closed_setNode r k _ hC
  · exact Repair.node_prev_lt r k hC
  · exact hv

theorem Repair.closed_setPrev (r : Repair) (k : Key) (v : Option Key)
    (hC : r.Closed) (hv : ∀ j, v = some j → j < r.fresh) :
    (r.setPrev k v).Closed := by
  apply Repair.closed_setNode r k _ hC
  · exact hv
  · exact Repair.node_next_lt r k hC

theorem Repair.closed_removeNode (r : Repair) (k : Key)
    (hC : r.Closed) : (r.removeNode k).Closed := by
  intro a m hm
  replace hm : mapFind ((k, (none : Option SymbolNode)) :: r.symbols) a = some m := hm
  show (∀ j, m.prev = some j → j < r.fresh) ∧ (∀ j, m.next = some j → j < r.fresh)
  by_cases h : k = a
  · subst h
    rw [mapFind_cons_eq] at hm
    simp at hm
  · rw [mapFind_cons_ne _ _ _ _ h] at hm
    exact hC a m hm

theorem Repair.closed_insertNode (r : Repair) (n : SymbolNode)
    (hC : r.Closed)
    (hp : ∀ j, n.prev = some j → j < r.fresh + 1)
    (hn : ∀ j, n.next = some j → j < r.fresh + 1) :
    ((r.insertNode n).1).Closed := by
  intro a m hm
  replace hm : mapFind ((r.fresh, some n) :: r.symbols) a = some m := hm
  show (∀ j, m.prev = some j → j < r.fresh + 1) ∧ (∀ j, m.next = some j → j < r.fresh + 1)
  by_cases h : r.fresh = a
  · subst h
    rw [mapFind_cons_eq] at hm
    cases hm
    exact ⟨hp, hn⟩
  · rw [mapFind_cons_ne _ _ _ _ h] at hm
    have := hC a m hm
    exact ⟨fun j hj => Nat.lt_succ_of_lt (this.1 j hj),
           fun j hj => Nat.lt_succ_of_lt (this.2 j hj)⟩

theorem Repair.getSymbolId_notRef (r : Repair) (k : Key) (id : Nat) (pid : PairSymbolId)
    (hpid : pid ≠ .ruleRefId id) (h : r.getSymbolId k = some pid) :
    r.symAt k ≠ some (.ruleRef id) := by
  intro hc
  have hsym : (r.node k).symbol = .ruleRef id := Repair.node_symbol_of_symAt r k _ hc
  unfold Repair.getSymbolId at h
  rw [hsym] at h
  simp only [Option.some.injEq] at h
  exact hpid h.symm

theorem Repair.getSymbolId_not_start (r : Repair) (k : Key) (pid : PairSymbolId)
    (h : r.getSymbolId k = some pid) (s : Symbol) (hs : r.symAt k = some s) :
    s.isSequenceStart = false := by
  have hsym : (r.node k).symbol = s := Repair.node_symbol_of_symAt r k s hs
  unfold Repair.getSymbolId at h
  rw [hsym] at h
  cases s with
  | value v => rfl
  | ruleRef i => rfl
  | ruleHead i c t => simp at h
  | ruleTail => simp at h

theorem Repair.replaceLoop_succ_some (fuel : Nat) (r : Repair) (pair : PairKey)
    (ruleId : Nat) (firstKey : Key) (records : List (PairKey × PairRecord))
    (threads : Threads) (pq : PriorityQueue) (count : Nat) :
    Repair.replaceLoop (fuel + 1) r pair ruleId (some firstKey) records threads pq count
      = if ¬ r.contains firstKey then
          Repair.replaceLoop fuel r pair ruleId
              ((mapFind threads firstKey).bind (fun t => t.nextSamePair)) records threads pq count
        else
          match (r.node firstKey).next with
          | none =>
            Repair.replaceLoop fuel r pair ruleId
              ((mapFind threads firstKey).bind (fun t => t.nextSamePair)) records threads pq count
          | some secondKey =>
            if ¬ r.contains secondKey then
              Repair.replaceLoop fuel r pair ruleId
              ((mapFind threads firstKey).bind (fun t => t.nextSamePair)) records threads pq count
            else if r.getSymbolId firstKey ≠ some pair.1
                ∨ r.getSymbolId secondKey ≠ some pair.2 then
              Repair.replaceLoop fuel r pair ruleId
              ((mapFind threads firstKey).bind (fun t => t.nextSamePair)) records threads pq count
            else
              match (match (r.node firstKey).prev with
              | some before =>
                if ¬ (((match (r.node secondKey).next with
                | some q =>
                  (match (r.node firstKey).prev with
                  | some p => (((r.insertNode (SymbolNode.mk' (Symbol.ruleRef ruleId))).1.setPrev r.fresh ((r.node firstKey).prev)).setNext r.fresh ((r.node secondKey).next)).setNext p (some r.fresh)
                  | none => (((r.insertNode (SymbolNode.mk' (Symbol.ruleRef ruleId))).1.setPrev r.fresh ((r.node firstKey).prev)).setNext r.fresh ((r.node secondKey).next))).setPrev q (some r.fresh)
                | none =>
                  (match (r.node firstKey).prev with
                  | some p => (((r.insertNode (SymbolNode.mk' (Symbol.ruleRef ruleId))).1.setPrev r.fresh ((r.node firstKey).prev)).setNext r.fresh ((r.node secondKey).next)).setNext p (some r.fresh)
                  | none => (((r.insertNode (SymbolNode.mk' (Symbol.ruleRef ruleId))).1.setPrev r.fresh ((r.node firstKey).prev)).setNext r.fresh ((r.node secondKey).next)))).removeNode firstKey).removeNode secondKey).isSentinel before then
                  match (((match (r.node secondKey).next with
                | some q =>
                  (match (r.node firstKey).prev with
                  | some p => (((r.insertNode (SymbolNode.mk' (Symbol.ruleRef ruleId))).1.setPrev r.fresh ((r.node firstKey).prev)).setNext r.fresh ((r.node secondKey).next)).setNext p (some r.fresh)
                  | none => (((r.insertNode (SymbolNode.mk' (Symbol.ruleRef ruleId))).1.setPrev r.fresh ((r.node firstKey).prev)).setNext r.fresh ((r.node secondKey).next))).setPrev q (some r.fresh)
                | none =>
                  (match (r.node firstKey).prev with
                  | some p => (((r.insertNode (SymbolNode.mk' (Symbol.ruleRef ruleId))).1.setPrev r.fresh ((r.node firstKey).prev)).setNext r.fresh ((r.node secondKey).next)).setNext p (some r.fresh)
                  | none => (((r.insertNode (SymbolNode.mk' (Symbol.ruleRef ruleId))).1.setPrev r.fresh ((r.node firstKey).prev)).setNext r.fresh ((r.node secondKey).next)))).removeNode firstKey).removeNode secondKey).getSymbolId before with
                  | some bid =>
                    match increasePairFrequency (match (r.node secondKey).next with
                | some after =>
                  if ¬ r.isSentinel after then
                    match r.getSymbolId secondKey, r.getSymbolId after with
                    | some sid, some aid => decreasePairFrequency (match (r.node firstKey).prev with
                | some before =>
                  if ¬ r.isSentinel before then
                    match r.getSymbolId before, r.getSymbolId firstKey with
                    | some bid, some fid => decreasePairFrequency records (bid, fid)
                    | _, _ => records
                  else records
                | none => records) (sid, aid)
                    | _, _ => (match (r.node firstKey).prev with
                | some before =>
                  if ¬ r.isSentinel before then
                    match r.getSymbolId before, r.getSymbolId firstKey with
                    | some bid, some fid => decreasePairFrequency records (bid, fid)
                    | _, _ => records
                  else records
                | none => records)
                  else (match (r.node firstKey).prev with
                | some before =>
                  if ¬ r.isSentinel before then
                    match r.getSymbolId before, r.getSymbolId firstKey with
                    | some bid, some fid => decreasePairFrequency records (bid, fid)
                    | _, _ => records
                  else records
                | none => records)
                | none => (match (r.node firstKey).prev with
                | some before =>
                  if ¬ r.isSentinel before then
                    match r.getSymbolId before, r.getSymbolId firstKey with
                    | some bid, some fid => decreasePairFrequency records (bid, fid)
                    | _, _ => records
                  else records
                | none => records)) (threadsErase threads firstKey)
                        (bid, PairSymbolId.ruleRefId ruleId) before with
                    | (records1, threads1, freq) =>
                      (records1, threads1,
                        if freq = 2 then
                          pq.insert (bid, PairSymbolId.ruleRefId ruleId) freq
                        else pq)
                  | none => ((match (r.node secondKey).next with
                | some after =>
                  if ¬ r.isSentinel after then
                    match r.getSymbolId secondKey, r.getSymbolId after with
                    | some sid, some aid => decreasePairFrequency (match (r.node firstKey).prev with
                | some before =>
                  if ¬ r.isSentinel before then
                    match r.getSymbolId before, r.getSymbolId firstKey with
                    | some bid, some fid => decreasePairFrequency records (bid, fid)
                    | _, _ => records
                  else records
                | none => records) (sid, aid)
                    | _, _ => (match (r.node firstKey).prev with
                | some before =>
                  if ¬ r.isSentinel before then
                    match r.getSymbolId before, r.getSymbolId firstKey with
                    | some bid, some fid => decreasePairFrequency records (bid, fid)
                    | _, _ => records
                  else records
                | none => records)
                  else (match (r.node firstKey).prev with
                | some before =>
                  if ¬ r.isSentinel before then
                    match r.getSymbolId before, r.getSymbolId firstKey with
                    | some bid, some fid => decreasePairFrequency records (bid, fid)
                    | _, _ => records
                  else records
                | none => records)
                | none => (match (r.node firstKey).prev with
                | some before =>
                  if ¬ r.isSentinel before then
                    match r.getSymbolId before, r.getSymbolId firstKey with
                    | some bid, some fid => decreasePairFrequency records (bid, fid)
                    | _, _ => records
                  else records
                | none => records)), (threadsErase threads firstKey), pq)
                else ((match (r.node secondKey).next with
                | some after =>
                  if ¬ r.isSentinel after then
                    match r.getSymbolId secondKey, r.getSymbolId after with
                    | some sid, some aid => decreasePairFrequency (match (r.node firstKey).prev with
                | some before =>
                  if ¬ r.isSentinel before then
                    match r.getSymbolId before, r.getSymbolId firstKey with
                    | some bid, some fid => decreasePairFrequency records (bid, fid)
                    | _, _ => records
                  else records
                | none => records) (sid, aid)
                    | _, _ => (match (r.node firstKey).prev with
                | some before =>
                  if ¬ r.isSentinel before then
                    match r.getSymbolId before, r.getSymbolId firstKey with
                    | some bid, some fid => decreasePairFrequency records (bid, fid)
                    | _, _ => records
                  else records
                | none => records)
                  else (match (r.node firstKey).prev with
                | some before =>
                  if ¬ r.isSentinel before then
                    match r.getSymbolId before, r.getSymbolId firstKey with
                    | some bid, some fid => decreasePairFrequency records (bid, fid)
                    | _, _ => records
                  else records
                | none => records)
                | none => (match (r.node firstKey).prev with
                | some before =>
                  if ¬ r.isSentinel before then
                    match r.getSymbolId before, r.getSymbolId firstKey with
                    | some bid, some fid => decreasePairFrequency records (bid, fid)
                    | _, _ => records
                  else records
                | none => records)), (threadsErase threads firstKey), pq)
              | none => ((match (r.node secondKey).next with
                | some after =>
                  if ¬ r.isSentinel after then
                    match r.getSymbolId secondKey, r.getSymbolId after with
                    | some sid, some aid => decreasePairFrequency (match (r.node firstKey).prev with
                | some before =>
                  if ¬ r.isSentinel before then
                    match r.getSymbolId before, r.getSymbolId firstKey with
                    | some bid, some fid => decreasePairFrequency records (bid, fid)
                    | _, _ => records
                  else records
                | none => records) (sid, aid)
                    | _, _ => (match (r.node firstKey).prev with
                | some before =>
                  if ¬ r.isSentinel before then
                    match r.getSymbolId before, r.getSymbolId firstKey with
                    | some bid, some fid => decreasePairFrequency records (bid, fid)
                    | _, _ => records
                  else records
                | none => records)
                  else (match (r.node firstKey).prev with
                | some before =>
                  if ¬ r.isSentinel before then
                    match r.getSymbolId before, r.getSymbolId firstKey with
                    | some bid, some fid => decreasePairFrequency records (bid, fid)
                    | _, _ => records
                  else records
                | none => records)
                | none => (match (r.node firstKey).prev with
                | some before =>
                  if ¬ r.isSentinel before then
                    match r.getSymbolId before, r.getSymbolId firstKey with
                    | some bid, some fid => decreasePairFrequency records (bid, fid)
                    | _, _ => records
                  else records
                | none => records)), (threadsErase threads firstKey), pq)) with
            | (records2, threads2, pq2) =>
              match (match (r.node secondKey).next with
                | some after =>
                  if ¬ (((match (r.node secondKey).next with
                | some q =>
                  (match (r.node firstKey).prev with
                  | some p => (((r.insertNode (SymbolNode.mk' (Symbol.ruleRef ruleId))).1.setPrev r.fresh ((r.node firstKey).prev)).setNext r.fresh ((r.node secondKey).next)).setNext p (some r.fresh)
                  | none => (((r.insertNode (SymbolNode.mk' (Symbol.ruleRef ruleId))).1.setPrev r.fresh ((r.node firstKey).prev)).setNext r.fresh ((r.node secondKey).next))).setPrev q (some r.fresh)
                | none =>
                  (match (r.node firstKey).prev with
                  | some p => (((r.insertNode (SymbolNode.mk' (Symbol.ruleRef ruleId))).1.setPrev r.fresh ((r.node firstKey).prev)).setNext r.fresh ((r.node secondKey).next)).setNext p (some r.fresh)
                  | none => (((r.insertNode (SymbolNode.mk' (Symbol.ruleRef ruleId))).1.setPrev r.fresh ((r.node firstKey).prev)).setNext r.fresh ((r.node secondKey).next)))).removeNode firstKey).removeNode secondKey).isSentinel after then
                    match (((match (r.node secondKey).next with
                | some q =>
                  (match (r.node firstKey).prev with
                  | some p => (((r.insertNode (SymbolNode.mk' (Symbol.ruleRef ruleId))).1.setPrev r.fresh ((r.node firstKey).prev)).setNext r.fresh ((r.node secondKey).next)).setNext p (some r.fresh)
                  | none => (((r.insertNode (SymbolNode.mk' (Symbol.ruleRef ruleId))).1.setPrev r.fresh ((r.node firstKey).prev)).setNext r.fresh ((r.node secondKey).next))).setPrev q (some r.fresh)
                | none =>
                  (match (r.node firstKey).prev with
                  | some p => (((r.insertNode (SymbolNode.mk' (Symbol.ruleRef ruleId))).1.setPrev r.fresh ((r.node firstKey).prev)).setNext r.fresh ((r.node secondKey).next)).setNext p (some r.fresh)
                  | none => (((r.insertNode (SymbolNode.mk' (Symbol.ruleRef ruleId))).1.setPrev r.fresh ((r.node firstKey).prev)).setNext r.fresh ((r.node secondKey).next)))).removeNode firstKey).removeNode secondKey).getSymbolId after with
                    | some aid =>
                      match increasePairFrequency records2 threads2
                          (PairSymbolId.ruleRefId ruleId, aid) r.fresh with
                      | (records1, threads1, freq) =>
                        (records1, threads1,
                          if freq = 2 then
                            pq2.insert (PairSymbolId.ruleRefId ruleId, aid) freq
                          else pq2)
                    | none => (records2, threads2, pq2)
                  else (records2, threads2, pq2)
                | none => (records2, threads2, pq2)) with
              | (records3, threads3, pq3) =>
                Repair.replaceLoop fuel (((match (r.node secondKey).next with
                | some q =>
                  (match (r.node firstKey).prev with
                  | some p => (((r.insertNode (SymbolNode.mk' (Symbol.ruleRef ruleId))).1.setPrev r.fresh ((r.node firstKey).prev)).setNext r.fresh ((r.node secondKey).next)).setNext p (some r.fresh)
                  | none => (((r.insertNode (SymbolNode.mk' (Symbol.ruleRef ruleId))).1.setPrev r.fresh ((r.node firstKey).prev)).setNext r.fresh ((r.node secondKey).next))).setPrev q (some r.fresh)
                | none =>
                  (match (r.node firstKey).prev with
                  | some p => (((r.insertNode (SymbolNode.mk' (Symbol.ruleRef ruleId))).1.setPrev r.fresh ((r.node firstKey).prev)).setNext r.fresh ((r.node secondKey).next)).setNext p (some r.fresh)
                  | none => (((r.insertNode (SymbolNode.mk' (Symbol.ruleRef ruleId))).1.setPrev r.fresh ((r.node firstKey).prev)).setNext r.fresh ((r.node secondKey).next)))).removeNode firstKey).removeNode secondKey) pair ruleId
                  ((mapFind threads firstKey).bind (fun t => t.nextSamePair)) records3 threads3 pq3 (count + 1) := rfl

theorem Repair.replaceLoop_refCount (pair : PairKey) (ruleId : Nat)
    (hp1 : pair.1 ≠ PairSymbolId.ruleRefId ruleId)
    (hp2 : pair.2 ≠ PairSymbolId.ruleRefId ruleId) :
    ∀ (fuel : Nat) (r : Repair) (occ : Option Key)
      (records : List (PairKey × PairRecord)) (threads : Threads)
      (pq : PriorityQueue) (c : Nat)
      (res : Repair × List (PairKey × PairRecord) × Threads × PriorityQueue × Nat),
      r.Bounded → r.Closed →
      res = Repair.replaceLoop fuel r pair ruleId occ records threads pq c →
      res.1.refCount ruleId + c = r.refCount ruleId + res.2.2.2.2
      ∧ res.1.ruleIndex = r.ruleIndex
      ∧ r.fresh ≤ res.1.fresh
      ∧ (∀ k s, k < r.fresh → r.symAt k = some s → s.isSequenceStart = true →
          res.1.symAt k = some s) := by
  intro fuel
  induction fuel with
  | zero =>
    intro r occ records threads pq c res hB hC hres
    subst hres
    cases occ with
    | none => exact ⟨rfl, rfl, Nat.le_refl _, fun k s _ hs _ => hs⟩
    | some k0 => exact ⟨rfl, rfl, Nat.le_refl _, fun k s _ hs _ => hs⟩
  | succ n ih =>
    intro r occ records threads pq c res hB hC hres
    cases occ with
    | none =>
      subst hres
      exact ⟨rfl, rfl, Nat.le_refl _, fun k s _ hs _ => hs⟩
    | some firstKey =>
      rw [Repair.replaceLoop_succ_some] at hres
      split at hres
      · exact ih r _ records threads pq c res hB hC hres
      · rename_i hc1
        split at hres
        · exact ih r _ records threads pq c res hB hC hres
        · rename_i secondKey hnext
          split at hres
          · exact ih r _ records threads pq c res hB hC hres
          · rename_i hc2
            split at hres
            · exact ih r _ records threads pq c res hB hC hres
            · rename_i hids
              rw [not_not] at hc1 hc2
              push_neg at hids
              obtain ⟨hid1, hid2⟩ := hids
              have hc1s : (mapFind r.symbols firstKey).isSome = true := hc1
              have hc2s : (mapFind r.symbols secondKey).isSome = true := hc2
              have hfk : firstKey < r.fresh := hB firstKey hc1s
              have hsk : secondKey < r.fresh := hB secondKey hc2s
              have hnr1 : r.symAt firstKey ≠ some (Symbol.ruleRef ruleId) :=
                Repair.getSymbolId_notRef r firstKey ruleId pair.1 hp1 hid1
              have hnr2 : r.symAt secondKey ≠ some (Symbol.ruleRef ruleId) :=
                Repair.getSymbolId_notRef r secondKey ruleId pair.2 hp2 hid2
              have hstart1 : ∀ s, r.symAt firstKey = some s → s.isSequenceStart = false :=
                fun s hs => Repair.getSymbolId_not_start r firstKey pair.1 hid1 s hs
              have hstart2 : ∀ s, r.symAt secondKey = some s → s.isSequenceStart = false :=
                fun s hs => Repair.getSymbolId_not_start r secondKey pair.2 hid2 s hs
              have hbkB : ∀ p, (r.node firstKey).prev = some p → p < r.fresh :=
                Repair.node_prev_lt r firstKey hC
              have hakB : ∀ q, (r.node secondKey).next = some q → q < r.fresh :=
                Repair.node_next_lt r secondKey hC
              obtain ⟨o2, rec2, th2, pq2, hres2⟩ :
                  ∃ o2 rec2 th2 pq2, res = Repair.replaceLoop n
                    (((match (r.node secondKey).next with
                | some q =>
                  (match (r.node firstKey).prev with
                  | some p => (((r.insertNode (SymbolNode.mk' (Symbol.ruleRef ruleId))).1.setPrev r.fresh ((r.node firstKey).prev)).setNext r.fresh ((r.node secondKey).next)).setNext p (some r.fresh)
                  | none => (((r.insertNode (SymbolNode.mk' (Symbol.ruleRef ruleId))).1.setPrev r.fresh ((r.node firstKey).prev)).setNext r.fresh ((r.node secondKey).next))).setPrev q (some r.fresh)
                | none =>
                  (match (r.node firstKey).prev with
                  | some p => (((r.insertNode (SymbolNode.mk' (Symbol.ruleRef ruleId))).1.setPrev r.fresh ((r.node firstKey).prev)).setNext r.fresh ((r.node secondKey).next)).setNext p (some r.fresh)
                  | none => (((r.insertNode (SymbolNode.mk' (Symbol.ruleRef ruleId))).1.setPrev r.fresh ((r.node firstKey).prev)).setNext r.fresh ((r.node secondKey).next)))).removeNode firstKey).removeNode secondKey)
                    pair ruleId o2 rec2 th2 pq2 (c + 1) := ⟨_, _, _, _, hres⟩
              set rA : Repair := (r.insertNode (SymbolNode.mk' (Symbol.ruleRef ruleId))).1 with hrA
              set rC : Repair :=
                (rA.setPrev r.fresh ((r.node firstKey).prev)).setNext r.fresh ((r.node secondKey).next) with hrC
              set rD : Repair := (match (r.node firstKey).prev with
                | some p => rC.setNext p (some r.fresh)
                | none => rC) with hrD
              set rE : Repair := (match (r.node secondKey).next with
                | some q => rD.setPrev q (some r.fresh)
                | none => rD) with hrE
              set rG : Repair := (rE.removeNode firstKey).removeNode secondKey with hrG
              have hfC : rC.fresh = r.fresh + 1 := rfl
              have hfD : rD.fresh = r.fresh + 1 := by
                rw [hrD]
                cases (r.node firstKey).prev with
                | none => exact hfC
                | some p => exact hfC
              have hfE : rE.fresh = r.fresh + 1 := by
                rw [hrE]
                cases (r.node secondKey).next with
                | none => exact hfD
                | some q => exact hfD
              have hfG : rG.fresh = r.fresh + 1 := hfE
              have hrcA : rA.refCount ruleId = r.refCount ruleId + 1 := by
                rw [hrA, Repair.refCount_insertNode]
                simp [SymbolNode.mk']
              have hrcC : rC.refCount ruleId = rA.refCount ruleId := by
                rw [hrC, Repair.refCount_setNext, Repair.refCount_setPrev]
              have hrcD : rD.refCount ruleId = rA.refCount ruleId := by
                rw [hrD]
                cases (r.node firstKey).prev with
                | none => exact hrcC
                | some p => rw [Repair.refCount_setNext]; exact hrcC
              have hrcE : rE.refCount ruleId = rA.refCount ruleId := by
                rw [hrE]
                cases (r.node secondKey).next with
                | none => exact hrcD
                | some q => rw [Repair.refCount_setPrev]; exact hrcD
              have hnrA1 : rA.symAt firstKey ≠ some (Symbol.ruleRef ruleId) := by
                rw [hrA]
                exact Repair.symAt_notRef_insertNode r _ ruleId firstKey
                  (Nat.ne_of_gt hfk) hnr1
              have hnrA2 : rA.symAt secondKey ≠ some (Symbol.ruleRef ruleId) := by
                rw [hrA]
                exact Repair.symAt_notRef_insertNode r _ ruleId secondKey
                  (Nat.ne_of_gt hsk) hnr2
              have hnrC1 : rC.symAt firstKey ≠ some (Symbol.ruleRef ruleId) := by
                rw [hrC]
                exact Repair.symAt_notRef_setNext _ _ _ _ _
                  (Repair.symAt_notRef_setPrev _ _ _ _ _ hnrA1)
              have hnrC2 : rC.symAt secondKey ≠ some (Symbol.ruleRef ruleId) := by
                rw [hrC]
                exact Repair.symAt_notRef_setNext _ _ _ _ _
                  (Repair.symAt_notRef_setPrev _ _ _ _ _ hnrA2)
              have hnrD1 : rD.symAt firstKey ≠ some (Symbol.ruleRef ruleId) := by
                rw [hrD]
                cases (r.node firstKey).prev with
                | none => exact hnrC1
                | some p => exact Repair.symAt_notRef_setNext _ _ _ _ _ hnrC1
              have hnrD2 : rD.symAt secondKey ≠ some (Symbol.ruleRef ruleId) := by
                rw [hrD]
                cases (r.node firstKey).prev with
                | none => exact hnrC2
                | some p => exact Repair.symAt_notRef_setNext _ _ _ _ _ hnrC2
              have hnrE1 : rE.symAt firstKey ≠ some (Symbol.ruleRef ruleId) := by
                rw [hrE]
                cases (r.node secondKey).next with
                | none => exact hnrD1
                | some q => exact Repair.symAt_notRef_setPrev _ _ _ _ _ hnrD1
              have hnrE2 : rE.symAt secondKey ≠ some (Symbol.ruleRef ruleId) := by
                rw [hrE]
                cases (r.node secondKey).next with
                | none => exact hnrD2
                | some q => exact Repair.symAt_notRef_setPrev _ _ _ _ _ hnrD2
              have hrcG : rG.refCount ruleId = r.refCount ruleId + 1 := by
                rw [hrG,
                  Repair.refCount_removeNode_notRef _ _ _
                    (Repair.symAt_notRef_removeNode _ _ _ _ hnrE2),
                  Repair.refCount_removeNode_notRef _ _ _ hnrE1, hrcE, hrcA]
              have hBA : rA.Bounded := by
                rw [hrA]
                exact Repair.bounded_insertNode r _ hB
              have hCA : rA.Closed := by
                rw [hrA]
                exact Repair.closed_insertNode r _ hC
                  (fun j hj => by simp [SymbolNode.mk'] at hj)
                  (fun j hj => by simp [SymbolNode.mk'] at hj)
              have hBC : rC.Bounded := by
                rw [hrC]
                exact Repair.bounded_setNext _ _ _
                  (Repair.bounded_setPrev _ _ _ hBA (Nat.lt_succ_self _))
                  (Nat.lt_succ_self _)
              have hCC : rC.Closed := by
                rw [hrC]
                refine Repair.closed_setNext _ _ _
                  (Repair.closed_setPrev _ _ _ hCA ?_) ?_
                · intro j hj
                  exact Nat.lt_succ_of_lt (hbkB j hj)
                · intro j hj
                  exact Nat.lt_succ_of_lt (hakB j hj)
              have hBD : rD.Bounded := by
                rw [hrD]
                cases h9 : (r.node firstKey).prev with
                | none => exact hBC
                | some p =>
                  exact Repair.bounded_setNext _ _ _ hBC
                    (Nat.lt_succ_of_lt (hbkB p h9))
              have hCD : rD.Closed := by
                rw [hrD]
                cases h9 : (r.node firstKey).prev with
                | none => exact hCC
                | some p =>
                  refine Repair.closed_setNext _ _ _ hCC ?_
                  intro j hj
                  injection hj with hj
                  subst hj
                  exact Nat.lt_succ_self _
              have hBE : rE.Bounded := by
                rw [hrE]
                cases h9 : (r.node secondKey).next with
                | none => exact hBD
                | some q =>
                  refine Repair.bounded_setPrev _ _ _ hBD ?_
                  rw [hfD]
                  exact Nat.lt_succ_of_lt (hakB q h9)
              have hCE : rE.Closed := by
                rw [hrE]
                cases h9 : (r.node secondKey).next with
                | none => exact hCD
                | some q =>
                  refine Repair.closed_setPrev _ _ _ hCD ?_
                  intro j hj
                  injection hj with hj
                  subst hj
                  rw [hfD]
                  exact Nat.lt_succ_self _
              have hBG : rG.Bounded := by
                rw [hrG]
                exact Repair.bounded_removeNode _ _ (Repair.bounded_removeNode _ _ hBE)
              have hCG : rG.Closed := by
                rw [hrG]
                exact Repair.closed_removeNode _ _ (Repair.closed_removeNode _ _ hCE)
              have hriG : rG.ruleIndex = r.ruleIndex := by
                have e1 : rG.ruleIndex = rE.ruleIndex := rfl
                have e3 : rD.ruleIndex = rC.ruleIndex := by
                  rw [hrD]
                  cases (r.node firstKey).prev with
                  | none => rfl
                  | some p => rfl
                have e2 : rE.ruleIndex = rD.ruleIndex := by
                  rw [hrE]
                  cases (r.node secondKey).next with
                  | none => rfl
                  | some q => rfl
                have e4 : rC.ruleIndex = r.ruleIndex := rfl
                rw [e1, e2, e3, e4]
              have hkeepG : ∀ k s, k < r.fresh → r.symAt k = some s →
                  s.isSequenceStart = true → rG.symAt k = some s := by
                intro k s hk hs hstart
                have hkf : k ≠ firstKey := by
                  intro hkc
                  subst hkc
                  have := hstart1 s hs
                  rw [this] at hstart
                  simp at hstart
                have hks : k ≠ secondKey := by
                  intro hkc
                  subst hkc
                  have := hstart2 s hs
                  rw [this] at hstart
                  simp at hstart
                have k1 : rA.symAt k = some s := by
                  rw [hrA, Repair.symAt_insertNode, if_neg (Nat.ne_of_gt hk)]
                  exact hs
                have k2 : rC.symAt k = some s := by
                  rw [hrC]
                  exact Repair.symAt_keep_setNext _ _ _ _ _
                    (Repair.symAt_keep_setPrev _ _ _ _ _ k1)
                have k3 : rD.symAt k = some s := by
                  rw [hrD]
                  cases (r.node firstKey).prev with
                  | none => exact k2
                  | some p => exact Repair.symAt_keep_setNext _ _ _ _ _ k2
                have k4 : rE.symAt k = some s := by
                  rw [hrE]
                  cases (r.node secondKey).next with
                  | none => exact k3
                  | some q => exact Repair.symAt_keep_setPrev _ _ _ _ _ k3
                rw [hrG, Repair.symAt_removeNode, if_neg (fun hc => hks hc.symm),
                  Repair.symAt_removeNode, if_neg (fun hc => hkf hc.symm)]
                exact k4
              have main := ih rG o2 rec2 th2 pq2 (c + 1) res hBG hCG hres2
              refine ⟨?_, ?_, ?_, ?_⟩
              · have h1 := main.1
                have h2 := hrcG
                omega
              · rw [main.2.1, hriG]
              · exact Nat.le_trans
                  (Nat.le_trans (Nat.le_succ r.fresh) (Nat.le_of_eq hfG.symm))
                  main.2.2.1
              · intro k s hk hs hstart
                exact main.2.2.2 k s
                  (by rw [hfG]; exact Nat.lt_succ_of_lt hk)
                  (hkeepG k s hk hs hstart) hstart

theorem mapFind_mem {α β : Type} [DecidableEq α] :
    ∀ (m : List (α × Option β)) (k : α) (b : β), mapFind m k = some b → (k, some b) ∈ m
  | [], k, b, h => by simp [mapFind] at h
  | (a, v) :: rest, k, b, h => by
    by_cases he : a = k
    · subst he
      rw [mapFind_cons_eq] at h
      rw [← h]
      exact List.mem_cons_self _ _
    · rw [mapFind_cons_ne _ _ _ _ he] at h
      exact List.mem_cons_of_mem _ (mapFind_mem rest k b h)

/-- Decidable check behind `Repair.Closed` for a literal node. -/
def nodeLinksBelow (f : Key) (v : Option SymbolNode) : Bool :=
  match v with
  | none => true
  | some nd =>
    (match nd.prev with
      | none => true
      | some j => decide (j < f))
      && (match nd.next with
        | none => true
        | some j => decide (j < f))

theorem Repair.bounded_of_all (r : Repair)
    (h : r.symbols.all (fun p => decide (p.1 < r.fresh)) = true) : r.Bounded := by
  intro k hk
  obtain ⟨b, hb⟩ := Option.isSome_iff_exists.mp hk
  have hmem := mapFind_mem _ _ _ hb
  have := List.all_eq_true.mp h _ hmem
  simpa using this

theorem Repair.closed_of_all (r : Repair)
    (h : r.symbols.all (fun p => nodeLinksBelow r.fresh p.2) = true) : r.Closed := by
  intro k n hn
  have hmem := mapFind_mem _ _ _ hn
  have hall := List.all_eq_true.mp h _ hmem
  simp only [nodeLinksBelow] at hall
  rw [Bool.and_eq_true] at hall
  obtain ⟨h1, h2⟩ := hall
  constructor
  · intro j hj
    rw [hj] at h1
    simpa using h1
  · intro j hj
    rw [hj] at h2
    simpa using h2

/-- **C7** (explicit; src/repair.rs `Repair::replace_all_occurrences`): after
`replace_all_occurrences` finishes processing a selected pair, the newly
created rule's head stores a count equal to the rule's live reference count
(the number of `RuleRef` nodes for it in the arena), and that count is exactly
the number of replacements the pass actually performed — the occurrence-loop
counter, which skips occurrences invalidated by earlier replacements (their
symbols no longer verify against the pair key).  The hypotheses state the
situation `compress` establishes before each pass: the rule was freshly
created (`ruleHead ruleId 0`, no references yet, and its key is indexed), and
the pair being replaced does not mention the new rule itself; `Bounded` and
`Closed` are the slotmap arena invariants. -/
theorem repair_rule_count_equals_replacements
    (fuel : Nat) (r : Repair) (pair : PairKey) (ruleId : Nat) (firstOccurrence : Key)
    (records : List (PairKey × PairRecord)) (threads : Threads) (pq : PriorityQueue)
    (headKey tailKey : Key)
    (hp1 : pair.1 ≠ PairSymbolId.ruleRefId ruleId)
    (hp2 : pair.2 ≠ PairSymbolId.ruleRefId ruleId)
    (hB : r.Bounded) (hC : r.Closed)
    (hlook : r.ruleLookup ruleId = some headKey)
    (hhead : r.symAt headKey = some (Symbol.ruleHead ruleId 0 tailKey))
    (hzero : r.refCount ruleId = 0) :
    (Repair.replaceAllOccurrences fuel r pair ruleId firstOccurrence records threads
        pq).1.symAt headKey
      = some (Symbol.ruleHead ruleId
          ((Repair.replaceAllOccurrences fuel r pair ruleId firstOccurrence records
              threads pq).1.refCount ruleId) tailKey)
    ∧ (Repair.replaceAllOccurrences fuel r pair ruleId firstOccurrence records
          threads pq).1.refCount ruleId
        = (Repair.replaceLoop fuel r pair ruleId (some firstOccurrence) records threads
            pq 0).2.2.2.2 := by
  rcases hL : Repair.replaceLoop fuel r pair ruleId (some firstOccurrence) records threads pq 0
    with ⟨r1, rec1, th1, pq1, cnt1⟩
  obtain ⟨hcount, hidx, hfr, hpres⟩ :=
    Repair.replaceLoop_refCount pair ruleId hp1 hp2 fuel r (some firstOccurrence)
      records threads pq 0 (r1, rec1, th1, pq1, cnt1) hB hC hL.symm
  have hheadSome : (mapFind r.symbols headKey).isSome = true := by
    unfold Repair.symAt at hhead
    cases hm : mapFind r.symbols headKey with
    | none => rw [hm] at hhead; simp at hhead
    | some nd => rfl
  have hkh : headKey < r.fresh := hB headKey hheadSome
  have hpresH : r1.symAt headKey = some (Symbol.ruleHead ruleId 0 tailKey) :=
    hpres headKey _ hkh hhead rfl
  have hlook1 : r1.ruleLookup ruleId = some headKey := by
    unfold Repair.ruleLookup at hlook ⊢
    rw [show r1.ruleIndex = r.ruleIndex from hidx]
    exact hlook
  have hns := Repair.node_symbol_of_symAt r1 headKey _ hpresH
  have heq : Repair.replaceAllOccurrences fuel r pair ruleId firstOccurrence records threads pq
      = (r1.setNode headKey
          { r1.node headKey with symbol := Symbol.ruleHead ruleId cnt1 tailKey },
         recordsErase rec1 pair, th1, pq1) := by
    unfold Repair.replaceAllOccurrences
    rw [hL]
    dsimp only
    split
    · rename_i headKey2 hlk
      rw [hlook1] at hlk
      injection hlk with hlk
      subst hlk
      split
      · rename_i rid c0 tail hsym
        rw [hns] at hsym
        injection hsym with e1 e2 e3
        subst e1
        subst e3
        rfl
      · rename_i hsym
        exact absurd hns (hsym ruleId 0 tailKey)
    · rename_i hlk
      rw [hlook1] at hlk
      simp at hlk
  have hrc1 : (r1.setNode headKey
        { r1.node headKey with symbol := Symbol.ruleHead ruleId cnt1 tailKey }).refCount ruleId
      = r1.refCount ruleId :=
    Repair.refCount_setNode_head r1 headKey _ ruleId
      (by rw [hpresH]; simp)
      (by simp)
  have hcnt : r1.refCount ruleId = cnt1 := by
    have h1 : r1.refCount ruleId + 0 = r.refCount ruleId + cnt1 := hcount
    omega
  refine ⟨?_, ?_⟩
  · rw [heq]
    dsimp only
    rw [Repair.symAt_setNode, if_pos rfl, hrc1, hcnt]
  · rw [heq]
    dsimp only
    rw [hrc1, hcnt]

/-- Concrete RePair state for the C7 witness: Rule 0 holds `10 20 10 20`
(keys `1 → 2 → 3 → 4 → 5 → 0`), and a fresh rule `1` with body `10 20`
(keys `7 → 8 → 9 → 6`) was just created and is not yet referenced. -/
def c7W : Repair :=
  { symbols :=
      [(0, some ⟨Symbol.ruleTail, some 5, none⟩),
       (1, some ⟨Symbol.ruleHead 0 0 0, none, some 2⟩),
       (2, some ⟨Symbol.value 10, some 1, some 3⟩),
       (3, some ⟨Symbol.value 20, some 2, some 4⟩),
       (4, some ⟨Symbol.value 10, some 3, some 5⟩),
       (5, some ⟨Symbol.value 20, some 4, some 0⟩),
       (6, some ⟨Symbol.ruleTail, some 9, none⟩),
       (7, some ⟨Symbol.ruleHead 1 0 6, none, some 8⟩),
       (8, some ⟨Symbol.value 10, some 7, some 9⟩),
       (9, some ⟨Symbol.value 20, some 8, some 6⟩)],
    fresh := 10,
    ruleIndex := [(0, 1), (1, 7)],
    idGen := ⟨2, []⟩,
    sequenceEnd := 0,
    length := 4,
    valuesDedup := [10, 20],
    valueToIndex := [(10, some 0), (20, some 1)],
    compressed := false }

/-- Occurrence threads of the two `(10, 20)` digram occurrences in `c7W`. -/
def c7Threads : Threads := [(2, some ⟨some 4, none⟩), (4, some ⟨none, some 2⟩)]

theorem repair_rule_count_equals_replacements_witness :
    (Repair.replaceAllOccurrences 3 c7W (PairSymbolId.terminal 0, PairSymbolId.terminal 1) 1 2
        [] c7Threads (PriorityQueue.new 4)).1.symAt 7
      = some (Symbol.ruleHead 1
          ((Repair.replaceAllOccurrences 3 c7W
              (PairSymbolId.terminal 0, PairSymbolId.terminal 1) 1 2
              [] c7Threads (PriorityQueue.new 4)).1.refCount 1) 6)
    ∧ (Repair.replaceAllOccurrences 3 c7W (PairSymbolId.terminal 0, PairSymbolId.terminal 1) 1 2
          [] c7Threads (PriorityQueue.new 4)).1.refCount 1
        = (Repair.replaceLoop 3 c7W (PairSymbolId.terminal 0, PairSymbolId.terminal 1) 1 (some 2)
            [] c7Threads (PriorityQueue.new 4) 0).2.2.2.2 :=
  repair_rule_count_equals_replacements 3 c7W
    (PairSymbolId.terminal 0, PairSymbolId.terminal 1) 1 2 [] c7Threads (PriorityQueue.new 4)
    7 6 (by decide) (by decide)
    (Repair.bounded_of_all c7W (by decide))
    (Repair.closed_of_all c7W (by decide))
    (by decide) (by decide) (by decide)

end SequiturRs
